import Mathlib

/-!
# CHIP-8 interpreter core (KonyD/chip8-emulator)

A shallow embedding of the interpreter, the timers and the reset of `chip8.go`,
the pixel toggle of `renderer.go` and the event handlers of `keyboard.go`,
followed by theorems about single instructions, runs of instructions, the
timers, the reset and the keyboard.

Conventions of the embedding.

* Go's fixed-width unsigned integers are natural numbers; every operation that
  can leave the range of its Go type is followed by an explicit `% 256`
  (`uint8`) or `% 65536` (`uint16`).
* Go arrays (`ram`, `V`, `stack`, `display`, `keypad`) are total functions on
  `Nat`; the bounds check that Go performs on every indexing operation is an
  explicit test, and a failed test (a run-time panic of the Go program) makes
  the function return `none`.  A division by zero is a panic as well.
* `rand.IntN(256)` is an extra argument `rnd` of `ExecuteInstruction`.
* The signed 16-bit `volume` is an integer, reduced by `int16` after every
  addition or subtraction.
* What reading the ROM file delivers is an argument `file` of `LoadRom`, `Init`
  and the key handlers: the bytes, or `none` when the program ends in
  `log.Fatalf`.
* The renderer holds a pointer to the very `Config` that `main` passes (by
  value) to `ExecuteInstruction`, and nothing changes `window_width` or
  `window_height` after start-up, so `SetPixel` receives the same `Config`.
-/

namespace Chip8

/-! ## Data model -/

/-- Go conversion `uint8(v)` of a signed integer: the low eight bits. -/
def uint8 (v : Int) : Nat := (v % 256).toNat

/-- The type `EmulatorState` (chip8.go 17-23). -/
inductive EmulatorState
  | QUIT
  | RUNNING
  | PAUSED
  deriving DecidableEq

/-- The type `Extension` (config.go 24-30). -/
inductive Extension
  | CHIP_8
  | SUPERCHIP
  | XOCHIP
  deriving DecidableEq

/-- The type `Config` (config.go 10-22); `romName` and the floating-point
`colorLerpRate` play no role in the interpreter and are left out. -/
structure Config where
  window_width : Int
  window_height : Int
  fgColor : Nat
  bgColor : Nat
  scale : Nat
  pixelOutlines : Bool
  instsPerSecond : Nat
  volume : Int
  currentExtension : Extension

/-- The type `Instruction` (chip8.go 25-32). -/
structure Instruction where
  opcode : Nat
  NNN : Nat
  NN : Nat
  N : Nat
  X : Nat
  Y : Nat
  deriving DecidableEq

/-- The type `CHIP8` (chip8.go 34-54) without the handles of the SDL
collaborators (`renderer`, `keyboard`, `speaker`) and without `romName`. -/
structure CHIP8 where
  state : EmulatorState
  ram : Nat → Nat
  entryPoint : Nat
  display : Nat → Bool
  pixelColor : Nat → Nat
  stack : Nat → Nat
  stackPointer : Nat
  V : Nat → Nat
  I : Nat
  PC : Nat
  delayTimer : Nat
  soundTimer : Nat
  keypad : Nat → Bool
  inst : Instruction
  beeping : Bool

/-- Array assignment `a[i] = v`. -/
def upd {α : Type} (a : Nat → α) (i : Nat) (v : α) : Nat → α :=
  fun j => if j = i then v else a j

/-- The values a Go variable of each field's type can hold. -/
structure CHIP8.WellTyped (c : CHIP8) : Prop where
  ram_lt : ∀ a, c.ram a < 256
  V_lt : ∀ i, c.V i < 256
  stack_lt : ∀ i, c.stack i < 65536
  stackPointer_lt : c.stackPointer < 256
  I_lt : c.I < 65536
  PC_lt : c.PC < 65536
  delayTimer_lt : c.delayTimer < 256
  soundTimer_lt : c.soundTimer < 256

/-! ## renderer.go -/

/-- The method `Renderer.SetPixel` (renderer.go 21-35): toggles one display cell and
reports whether a lit cell was hit by a set sprite bit. -/
def SetPixel (config : Config) (chip8 : CHIP8) (x y : Nat) (spriteBit : Bool) :
    Option (CHIP8 × Bool) :=
  let cols := uint8 config.window_width
  let rows := uint8 config.window_height
  if cols = 0 ∨ rows = 0 then none
  else
    let x := x % cols
    let y := y % rows
    let pixelIndex := y * cols + x
    if pixelIndex < 64 * 32 then
      let collision := spriteBit && chip8.display pixelIndex
      some ({ chip8 with
                display := upd chip8.display pixelIndex (chip8.display pixelIndex != spriteBit) },
            collision)
    else none

/-! ## chip8.go: `ExecuteInstruction` -/

/-- Field extraction of chip8.go 174-178. -/
def decode (opcode : Nat) : Instruction :=
  { opcode := opcode
    NNN := opcode &&& 0x0FFF
    NN := (opcode % 256) &&& 0x0FF
    N := (opcode % 256) &&& 0x0F
    X := ((opcode &&& 0x0F00) >>> 8) % 256
    Y := ((opcode &&& 0x00F0) >>> 4) % 256 }

/-- The `8XYN` group (chip8.go 229-314). -/
def execALU (config : Config) (inst : Instruction) (chip8 : CHIP8) : CHIP8 :=
  match inst.N with
  | 0 => { chip8 with V := upd chip8.V inst.X (chip8.V inst.Y) }
  | 1 =>
    let c1 := { chip8 with V := upd chip8.V inst.X (chip8.V inst.X ||| chip8.V inst.Y) }
    if config.currentExtension = Extension.CHIP_8 then { c1 with V := upd c1.V 0xF 0 } else c1
  | 2 =>
    let c1 := { chip8 with V := upd chip8.V inst.X (chip8.V inst.X &&& chip8.V inst.Y) }
    if config.currentExtension = Extension.CHIP_8 then { c1 with V := upd c1.V 0xF 0 } else c1
  | 3 =>
    let c1 := { chip8 with V := upd chip8.V inst.X (chip8.V inst.X ^^^ chip8.V inst.Y) }
    if config.currentExtension = Extension.CHIP_8 then { c1 with V := upd c1.V 0xF 0 } else c1
  | 4 =>
    let carry : Bool := decide ((chip8.V inst.X + chip8.V inst.Y) % 65536 > 255)
    let c1 := { chip8 with V := upd chip8.V inst.X ((chip8.V inst.X + chip8.V inst.Y) % 256) }
    if carry then { c1 with V := upd c1.V 0xF 1 } else { c1 with V := upd c1.V 0xF 0 }
  | 5 =>
    let carry : Bool := decide (chip8.V inst.Y ≤ chip8.V inst.X)
    let c1 := { chip8 with
                  V := upd chip8.V inst.X ((chip8.V inst.X + 256 - chip8.V inst.Y) % 256) }
    if carry then { c1 with V := upd c1.V 0xF 1 } else { c1 with V := upd c1.V 0xF 0 }
  | 6 =>
    if config.currentExtension = Extension.CHIP_8 then
      let carry := chip8.V inst.Y &&& 1
      let c1 := { chip8 with V := upd chip8.V inst.X (chip8.V inst.Y >>> 1) }
      { c1 with V := upd c1.V 0xF carry }
    else
      let carry := chip8.V inst.X &&& 1
      let c1 := { chip8 with V := upd chip8.V inst.X (chip8.V inst.X >>> 1) }
      { c1 with V := upd c1.V 0xF carry }
  | 7 =>
    let carry : Bool := decide (chip8.V inst.X ≤ chip8.V inst.Y)
    let c1 := { chip8 with
                  V := upd chip8.V inst.X ((chip8.V inst.Y + 256 - chip8.V inst.X) % 256) }
    if carry then { c1 with V := upd c1.V 0xF 1 } else { c1 with V := upd c1.V 0xF 0 }
  | 0xE =>
    if config.currentExtension = Extension.CHIP_8 then
      let carry := (chip8.V inst.Y &&& 0x80) >>> 7
      let c1 := { chip8 with V := upd chip8.V inst.X ((chip8.V inst.Y <<< 1) % 256) }
      { c1 with V := upd c1.V 0xF carry }
    else
      let carry := (chip8.V inst.Y &&& 0x80) >>> 7
      let c1 := { chip8 with V := upd chip8.V inst.X ((chip8.V inst.X <<< 1) % 256) }
      { c1 with V := upd c1.V 0xF carry }
  | _ => chip8

/-- The inner loop of `DXYN` (chip8.go 349-361).  The first argument is
`col + 1`, so that `0` stands for the loop exit `col < 0`. -/
def drawRow (config : Config) (spriteData yCoord : Nat) : Nat → Nat → CHIP8 → Option CHIP8
  | 0, _, chip8 => some chip8
  | col + 1, xCoord, chip8 =>
    let spriteBit : Bool := (spriteData &&& ((1 <<< col) % 256)) != 0
    match SetPixel config chip8 xCoord yCoord spriteBit with
    | none => none
    | some (c1, collision) =>
      let c2 := if collision then { c1 with V := upd c1.V 0xF 1 } else c1
      let xCoord := (xCoord + 1) % 256
      if xCoord ≥ uint8 config.window_width then some c2
      else drawRow config spriteData yCoord col xCoord c2

/-- The outer loop of `DXYN` (chip8.go 344-368).  The first argument is the
number `N - row` of rows still to draw, so that `0` stands for the loop exit
`row >= N`. -/
def drawSprite (config : Config) (origX : Nat) : Nat → Nat → Nat → CHIP8 → Option CHIP8
  | 0, _, _, chip8 => some chip8
  | todo + 1, row, yCoord, chip8 =>
    let addr := (chip8.I + row) % 65536
    if addr < 4096 then
      let spriteData := chip8.ram addr
      match drawRow config spriteData yCoord 8 origX chip8 with
      | none => none
      | some c1 =>
        let yCoord := (yCoord + 1) % 256
        if yCoord ≥ uint8 config.window_height then some c1
        else drawSprite config origX todo ((row + 1) % 256) yCoord c1
    else none

/-- The instruction `DXYN` (chip8.go 333-368). -/
def execDraw (config : Config) (inst : Instruction) (chip8 : CHIP8) : Option CHIP8 :=
  if uint8 config.window_width = 0 ∨ uint8 config.window_height = 0 then none
  else
    let xCoord := chip8.V inst.X % uint8 config.window_width
    let yCoord := chip8.V inst.Y % uint8 config.window_height
    let origX := xCoord
    let c1 := { chip8 with V := upd chip8.V 0xF 0 }
    drawSprite config origX inst.N 0 yCoord c1

/-- The key scan of `FX0A` (chip8.go 386-395), returning `(key, anyKeyPressed)`.
The first argument is `len(keypad) - i`. -/
def scanKeys (keypad : Nat → Bool) : Nat → Nat → Nat × Bool
  | 0, _ => (0xFF, false)
  | todo + 1, i => if keypad i then (i % 256, true) else scanKeys keypad todo (i + 1)

/-- The loop of `FX55` (chip8.go 438-445).  The first argument is the number
`X + 1 - i` of registers still to store. -/
def regDump (config : Config) : Nat → Nat → CHIP8 → Option CHIP8
  | 0, _, chip8 => some chip8
  | todo + 1, i, chip8 =>
    if config.currentExtension = Extension.CHIP_8 then
      if chip8.I < 4096 then
        regDump config todo (i + 1)
          { chip8 with ram := upd chip8.ram chip8.I (chip8.V i), I := (chip8.I + 1) % 65536 }
      else none
    else
      if (chip8.I + i) % 65536 < 4096 then
        regDump config todo (i + 1)
          { chip8 with ram := upd chip8.ram ((chip8.I + i) % 65536) (chip8.V i) }
      else none

/-- The loop of `FX65` (chip8.go 450-457).  The first argument is the number
`X + 1 - i` of registers still to load. -/
def regLoad (config : Config) : Nat → Nat → CHIP8 → Option CHIP8
  | 0, _, chip8 => some chip8
  | todo + 1, i, chip8 =>
    if config.currentExtension = Extension.CHIP_8 then
      if chip8.I < 4096 then
        regLoad config todo (i + 1)
          { chip8 with V := upd chip8.V i (chip8.ram chip8.I), I := (chip8.I + 1) % 65536 }
      else none
    else
      if (chip8.I + i) % 65536 < 4096 then
        regLoad config todo (i + 1)
          { chip8 with V := upd chip8.V i (chip8.ram ((chip8.I + i) % 65536)) }
      else none

/-- The `EXNN` group (chip8.go 369-381); `keypad` has 16 entries. -/
def execKey (inst : Instruction) (chip8 : CHIP8) : Option CHIP8 :=
  match inst.NN with
  | 0x9E =>
    if chip8.V inst.X < 16 then
      if chip8.keypad (chip8.V inst.X) then some { chip8 with PC := (chip8.PC + 2) % 65536 }
      else some chip8
    else none
  | 0xA1 =>
    if chip8.V inst.X < 16 then
      if !chip8.keypad (chip8.V inst.X) then some { chip8 with PC := (chip8.PC + 2) % 65536 }
      else some chip8
    else none
  | _ => some chip8

/-- The `FXNN` group (chip8.go 382-458). -/
def execMisc (config : Config) (inst : Instruction) (chip8 : CHIP8) : Option CHIP8 :=
  match inst.NN with
  | 0x0A =>
    let (key, anyKeyPressed) := scanKeys chip8.keypad 16 0
    if !anyKeyPressed then some { chip8 with PC := (chip8.PC + 65536 - 2) % 65536 }
    else if key < 16 then
      if chip8.keypad key then some { chip8 with PC := (chip8.PC + 65536 - 2) % 65536 }
      else some { chip8 with V := upd chip8.V inst.X key }
    else none
  | 0x1E => some { chip8 with I := (chip8.I + chip8.V inst.X) % 65536 }
  | 0x07 => some { chip8 with V := upd chip8.V inst.X chip8.delayTimer }
  | 0x15 => some { chip8 with delayTimer := chip8.V inst.X }
  | 0x18 => some { chip8 with soundTimer := chip8.V inst.X }
  | 0x29 => some { chip8 with I := (chip8.V inst.X * 5) % 256 }
  | 0x33 =>
    let bcd := chip8.V inst.X
    if (chip8.I + 2) % 65536 < 4096 then
      let c1 := { chip8 with ram := upd chip8.ram ((chip8.I + 2) % 65536) (bcd % 10) }
      let bcd := bcd / 10
      if (chip8.I + 1) % 65536 < 4096 then
        let c2 := { c1 with ram := upd c1.ram ((chip8.I + 1) % 65536) (bcd % 10) }
        let bcd := bcd / 10
        if chip8.I < 4096 then some { c2 with ram := upd c2.ram chip8.I bcd }
        else none
      else none
    else none
  | 0x55 => regDump config (inst.X + 1) 0 chip8
  | 0x65 => regLoad config (inst.X + 1) 0 chip8
  | _ => some chip8

/-- The dispatch `switch (opcode >> 12) & 0x0F` of chip8.go 180-461, applied to the
machine after the fetch. -/
def dispatch (config : Config) (rnd : Nat) (inst : Instruction) (chip8 : CHIP8) :
    Option CHIP8 :=
  match (inst.opcode >>> 12) &&& 0x0F with
  | 0x00 =>
    match inst.NNN with
    | 0x0E0 => some { chip8 with display := fun _ => false }
    | 0x0EE =>
      let sp := (chip8.stackPointer + 256 - 1) % 256
      if sp < 12 then some { chip8 with stackPointer := sp, PC := chip8.stack sp }
      else none
    | _ => some chip8
  | 0x01 => some { chip8 with PC := inst.NNN }
  | 0x02 =>
    if chip8.stackPointer < 12 then
      some { chip8 with
               stack := upd chip8.stack chip8.stackPointer chip8.PC
               stackPointer := (chip8.stackPointer + 1) % 256
               PC := inst.NNN }
    else none
  | 0x03 =>
    if chip8.V inst.X = inst.NN then some { chip8 with PC := (chip8.PC + 2) % 65536 }
    else some chip8
  | 0x04 =>
    if chip8.V inst.X ≠ inst.NN then some { chip8 with PC := (chip8.PC + 2) % 65536 }
    else some chip8
  | 0x05 =>
    if inst.N ≠ 0 then some chip8
    else if chip8.V inst.X = chip8.V inst.Y then
      some { chip8 with PC := (chip8.PC + 2) % 65536 }
    else some chip8
  | 0x06 => some { chip8 with V := upd chip8.V inst.X inst.NN }
  | 0x07 => some { chip8 with V := upd chip8.V inst.X ((chip8.V inst.X + inst.NN) % 256) }
  | 0x08 => some (execALU config inst chip8)
  | 0x09 =>
    if inst.N ≠ 0 then some chip8
    else if chip8.V inst.X ≠ chip8.V inst.Y then
      some { chip8 with PC := (chip8.PC + 2) % 65536 }
    else some chip8
  | 0x0A => some { chip8 with I := inst.NNN }
  | 0x0B => some { chip8 with PC := (chip8.V 0 + inst.NNN) % 65536 }
  | 0x0C => some { chip8 with V := upd chip8.V inst.X ((rnd % 256) &&& inst.NN) }
  | 0x0D => execDraw config inst chip8
  | 0x0E => execKey inst chip8
  | 0x0F => execMisc config inst chip8
  | _ => some chip8

/-- The method `CHIP8.ExecuteInstruction` (chip8.go 167-462): fetch, pre-increment
of `PC`, decode and dispatch.  `rnd` is the value returned by `rand.IntN(256)`. -/
def ExecuteInstruction (config : Config) (rnd : Nat) (chip8 : CHIP8) : Option CHIP8 :=
  if chip8.PC < 4096 ∧ (chip8.PC + 1) % 65536 < 4096 then
    let opcode := ((chip8.ram chip8.PC <<< 8) % 65536) ||| chip8.ram ((chip8.PC + 1) % 65536)
    let inst := decode opcode
    dispatch config rnd inst { chip8 with PC := (chip8.PC + 2) % 65536, inst := inst }
  else none

/-- The instruction record that `decode` yields for the opcode with the four nibbles
`hi X Y N` (see `decode_nibbles`); used to state what the fetch delivers. -/
def instOf (hi X Y N : Nat) : Instruction :=
  { opcode := hi * 4096 + X * 256 + Y * 16 + N
    NNN := X * 256 + Y * 16 + N
    NN := Y * 16 + N
    N := N
    X := X
    Y := Y }

/-! ## Concrete configurations and machines used in the examples -/

/-- The defaults of `Config.SetConfigFromArgs` (config.go 34-40), with the extension
as a parameter. -/
def defaultConfig (e : Extension) : Config :=
  { window_width := 64, window_height := 32, fgColor := 0xFFFFFFFF, bgColor := 0, scale := 10,
    pixelOutlines := false, instsPerSecond := 500, volume := 3000, currentExtension := e }

/-- A running machine with `PC` at the entry point and everything else zero. -/
def blank : CHIP8 :=
  { state := .RUNNING, ram := fun _ => 0, entryPoint := 0x200, display := fun _ => false,
    pixelColor := fun _ => 0, stack := fun _ => 0, stackPointer := 0, V := fun _ => 0,
    I := 0, PC := 0x200, delayTimer := 0, soundTimer := 0, keypad := fun _ => false,
    inst := decode 0, beeping := false }


/-- A machine whose RAM holds only the two bytes `b0 b1` at the entry point `0x200`,
with the given registers, index register and keypad. -/
def machine (b0 b1 : Nat) (V : Nat → Nat) (I : Nat) (keypad : Nat → Bool) : CHIP8 :=
  { blank with ram := upd (upd blank.ram 0x200 b0) 0x201 b1, V := V, I := I, keypad := keypad }

/-- Scenario 3 of the specification: `8EF4` with `V[0xE] = 0xFF`, `V[0xF] = 1`. -/
def addCarryMachine : CHIP8 :=
  machine 0x8E 0xF4 (upd (upd (fun _ => 0) 0xE 0xFF) 0xF 1) 0 (fun _ => false)

/-- Scenario 4 of the specification: `8F05` with `V[0] = 2`, `V[0xF] = 5`. -/
def subBorrowMachine : CHIP8 :=
  machine 0x8F 0x05 (upd (upd (fun _ => 0) 0 2) 0xF 5) 0 (fun _ => false)

/-- Scenario 5 of the specification: `8016` with `V[0] = 0`, `V[1] = 0x81`. -/
def shiftRightYMachine : CHIP8 :=
  machine 0x80 0x16 (upd (fun _ => 0) 1 0x81) 0 (fun _ => false)

/-- Scenario 5 of the specification: `8006` with `V[0] = 0x81`. -/
def shiftRightXMachine : CHIP8 :=
  machine 0x80 0x06 (upd (fun _ => 0) 0 0x81) 0 (fun _ => false)

/-- The opcode `801E` with `V[0] = 0x80`, `V[1] = 0`. -/
def shiftLeftMachine : CHIP8 :=
  machine 0x80 0x1E (upd (fun _ => 0) 0 0x80) 0 (fun _ => false)

/-- The opcode `8011` with `V[0] = 0x0C`, `V[1] = 0x0A`, `V[0xF] = 7`. -/
def orMachine : CHIP8 :=
  machine 0x80 0x11 (upd (upd (upd (fun _ => 0) 0 0x0C) 1 0x0A) 0xF 7) 0 (fun _ => false)

/-- Scenario 7 of the specification: `F233` with `V[2] = 234`, `I = 0x300`. -/
def bcdMachine : CHIP8 :=
  machine 0xF2 0x33 (upd (fun _ => 0) 2 234) 0x300 (fun _ => false)

/-- Scenario 8 of the specification: `F355` with `V[0..3] = 1, 2, 3, 4`, `I = 0x400`. -/
def dumpMachine : CHIP8 :=
  machine 0xF3 0x55 (upd (upd (upd (upd (fun _ => 0) 0 1) 1 2) 2 3) 3 4) 0x400 (fun _ => false)

/-- The opcode `F029` with `V[0] = 52`. -/
def fontMachine : CHIP8 :=
  machine 0xF0 0x29 (upd (fun _ => 0) 0 52) 0 (fun _ => false)

/-- The opcode `F00A` with key 5 held. -/
def keyHeldMachine : CHIP8 :=
  machine 0xF0 0x0A (fun _ => 0) 0 (upd (fun _ => false) 5 true)

/-- Scenario 6 of the specification: `D011` with a cleared display, `V[0] = 62`,
`V[1] = 0` and the sprite byte `0xFF` at `I = 0x300`. -/
def clipMachine : CHIP8 :=
  { machine 0xD0 0x11 (upd (fun _ => 0) 0 62) 0x300 (fun _ => false) with
    ram := upd (upd (upd blank.ram 0x200 0xD0) 0x201 0x11) 0x300 0xFF }

/-- The machine `clipMachine` with the cell (62, 0) already lit. -/
def collideMachine : CHIP8 :=
  { clipMachine with display := upd (fun _ => false) 62 true }

/-! ## Closed forms of the two drawing loops

These definitions are not part of the program: they describe what the loops
`drawRow` and `drawSprite` do to the display and whether they raise the
collision flag, and each is proved equal to what the loop computes. -/

/-- The display after one sprite row: the cells `x, x+1, ...` of row `y` (at most `n`
of them, none beyond column 63) are toggled by the bits `n-1, n-2, ...` of `data`. -/
def rowDisplay (d : Nat → Bool) (data y n x : Nat) : Nat → Bool :=
  fun i =>
    if y * 64 + x ≤ i ∧ i < y * 64 + min (x + n) 64 then
      (d i != data.testBit (n - 1 - (i - (y * 64 + x))))
    else d i

/-- Whether one sprite row hits a lit cell with a set bit. -/
def rowHit (d : Nat → Bool) (data y : Nat) : Nat → Nat → Bool
  | 0, _ => false
  | n + 1, x => (data.testBit n && d (y * 64 + x)) || (decide (x + 1 < 64) && rowHit d data y n (x + 1))

/-- The display after `n` sprite rows read from `ram[I + row], ram[I + row + 1], ...` and
drawn from row `y` downwards, none below row 31. -/
def spriteDisplay (d : Nat → Bool) (ram : Nat → Nat) (I x0 n row y : Nat) : Nat → Bool :=
  fun i =>
    if y ≤ i / 64 ∧ i / 64 < min (y + n) 32 ∧ x0 ≤ i % 64 ∧ i % 64 < min (x0 + 8) 64 then
      (d i != (ram (I + row + (i / 64 - y))).testBit (7 - (i % 64 - x0)))
    else d i

/-- Whether one of `n` sprite rows hits a lit cell with a set bit. -/
def spriteHit (d : Nat → Bool) (ram : Nat → Nat) (I x0 : Nat) : Nat → Nat → Nat → Bool
  | 0, _, _ => false
  | n + 1, row, y =>
    rowHit d (ram (I + row)) y 8 x0 ||
      (decide (y + 1 < 32) && spriteHit d ram I x0 n (row + 1) (y + 1))

/-! ## chip8.go: cycles, timers, reset and start-up -/

/-- Successive calls of `ExecuteInstruction` (the loop of chip8.go 515-517), one value of
`rand.IntN(256)` for each call; `none` as soon as one call faults. -/
def runCycles (config : Config) : List Nat → CHIP8 → Option CHIP8
  | [], chip8 => some chip8
  | rnd :: rest, chip8 =>
    match ExecuteInstruction config rnd chip8 with
    | none => none
    | some c1 => runCycles config rest c1

/-- The method `CHIP8.UpdateTimers` (chip8.go 154-165).  Each decrement is guarded by
`> 0`, so it cannot wrap. -/
def UpdateTimers (chip8 : CHIP8) : CHIP8 :=
  let c1 := if chip8.delayTimer > 0 then { chip8 with delayTimer := chip8.delayTimer - 1 }
            else chip8
  if c1.soundTimer > 0 then { c1 with soundTimer := c1.soundTimer - 1, beeping := true }
  else { c1 with beeping := false }

/-- The method `CHIP8.Reset` (chip8.go 56-83).  A loop `for i := range a` that assigns the same
value to every element is the constant function.  `speaker.Close()` is outside the model. -/
def Reset (chip8 : CHIP8) : CHIP8 :=
  { chip8 with
    ram := fun _ => 0
    V := fun _ => 0
    I := 0
    PC := chip8.entryPoint % 65536
    stackPointer := 0
    stack := fun _ => 0
    display := fun _ => false
    keypad := fun _ => false
    delayTimer := 0
    soundTimer := 0 }

/-- The array `font` of `CHIP8.LoadFont` (chip8.go 109-126). -/
def font : List Nat :=
  [0xF0, 0x90, 0x90, 0x90, 0xF0,
   0x20, 0x60, 0x20, 0x20, 0x70,
   0xF0, 0x10, 0xF0, 0x80, 0xF0,
   0xF0, 0x10, 0xF0, 0x10, 0xF0,
   0x90, 0x90, 0xF0, 0x10, 0x10,
   0xF0, 0x80, 0xF0, 0x10, 0xF0,
   0xF0, 0x80, 0xF0, 0x90, 0xF0,
   0xF0, 0x10, 0x20, 0x40, 0x40,
   0xF0, 0x90, 0xF0, 0x90, 0xF0,
   0xF0, 0x90, 0xF0, 0x10, 0xF0,
   0xF0, 0x90, 0xF0, 0x90, 0x90,
   0xE0, 0x90, 0xE0, 0x90, 0xE0,
   0xF0, 0x80, 0x80, 0x80, 0xF0,
   0xE0, 0x90, 0x90, 0x90, 0xE0,
   0xF0, 0x80, 0xF0, 0x80, 0xF0,
   0xF0, 0x80, 0xF0, 0x80, 0x80]

/-- Go's `copy(dst[off:], src)` for an array `dst` of `len` elements: the first
`min(len - off, len(src))` elements of `src` are stored from index `off` on. -/
def copyAt (dst : Nat → Nat) (len off : Nat) (src : List Nat) : Nat → Nat :=
  fun a => if off ≤ a ∧ a < off + min (len - off) src.length then src.getD (a - off) 0 else dst a

/-- The method `CHIP8.LoadFont` (chip8.go 106-131). -/
def LoadFont (chip8 : CHIP8) : CHIP8 :=
  { chip8 with ram := copyAt chip8.ram 4096 0 font }

/-- The method `CHIP8.LoadRom` (chip8.go 133-152).  `file` is what `os.Open` and `io.ReadAll`
deliver for `romName`: the bytes of the file, or `none` when either call fails and
`log.Fatalf` ends the program.  The slice `ram[entryPoint:]` needs `entryPoint <= 4096`. -/
def LoadRom (file : Option (List Nat)) (entryPoint : Nat) (chip8 : CHIP8) : Option CHIP8 :=
  match file with
  | none => none
  | some romData =>
    if entryPoint ≤ 4096 then some { chip8 with ram := copyAt chip8.ram 4096 entryPoint romData }
    else none

/-- The method `CHIP8.Init` (chip8.go 85-104).  The renderer, keyboard and speaker set up
in lines 99-103 are outside the model. -/
def Init (file : Option (List Nat)) (config : Config) (chip8 : CHIP8) : Option CHIP8 :=
  let c1 := { chip8 with entryPoint := 0x200 }
  let c2 := LoadFont c1
  match LoadRom file c2.entryPoint c2 with
  | none => none
  | some c3 =>
    some { c3 with
           state := EmulatorState.RUNNING
           PC := c3.entryPoint % 65536
           pixelColor := fun _ => config.bgColor
           beeping := false }

/-! ## keyboard.go -/

/-- The scancodes that `keyboard.go` distinguishes; every other scancode is `Other`. -/
inductive Scancode
  | ScancodeEscape
  | ScancodeSpace
  | ScancodeR
  | ScancodeO
  | ScancodeP
  | ScancodeJ
  | ScancodeK
  | Scancode1
  | Scancode2
  | Scancode3
  | Scancode4
  | ScancodeQ
  | ScancodeW
  | ScancodeE
  | ScancodeA
  | ScancodeS
  | ScancodeD
  | ScancodeF
  | ScancodeZ
  | ScancodeX
  | ScancodeC
  | ScancodeV
  | Other
  deriving DecidableEq

/-- The map `keymap` (keyboard.go 22-42); `none` for a scancode that is not a key of it. -/
def keymap : Scancode → Option Nat
  | Scancode.Scancode1 => some 0x1
  | Scancode.Scancode2 => some 0x2
  | Scancode.Scancode3 => some 0x3
  | Scancode.Scancode4 => some 0xC
  | Scancode.ScancodeQ => some 0x4
  | Scancode.ScancodeW => some 0x5
  | Scancode.ScancodeE => some 0x6
  | Scancode.ScancodeR => some 0xD
  | Scancode.ScancodeA => some 0x7
  | Scancode.ScancodeS => some 0x8
  | Scancode.ScancodeD => some 0x9
  | Scancode.ScancodeF => some 0xE
  | Scancode.ScancodeZ => some 0xA
  | Scancode.ScancodeX => some 0x0
  | Scancode.ScancodeC => some 0xB
  | Scancode.ScancodeV => some 0xF
  | _ => none

/-- Go conversion to `int16`: the low sixteen bits, read as a signed number. -/
def int16 (v : Int) : Int := (v + 32768) % 65536 - 32768

/-- The method `Keyboard.OnKeyDown` (keyboard.go 61-106) for a key-down event with the given
scancode.  `file` is what reading the ROM file delivers when `R` reloads it.  The keys `J`
and `K` change only the floating-point `colorLerpRate`, which `Config` leaves out. -/
def OnKeyDown (file : Option (List Nat)) (config : Config) (chip8 : CHIP8) (sc : Scancode) :
    Option (Config × CHIP8) :=
  match sc with
  | Scancode.ScancodeEscape => some (config, { chip8 with state := EmulatorState.QUIT })
  | Scancode.ScancodeSpace =>
    if chip8.state = EmulatorState.RUNNING then
      some (config, { chip8 with state := EmulatorState.PAUSED })
    else some (config, { chip8 with state := EmulatorState.RUNNING })
  | Scancode.ScancodeR =>
    match Init file config (Reset chip8) with
    | none => none
    | some c1 => some (config, c1)
  | Scancode.ScancodeO =>
    if config.volume > 0 then some ({ config with volume := int16 (config.volume - 500) }, chip8)
    else some (config, chip8)
  | Scancode.ScancodeP =>
    if config.volume < 32767 then
      some ({ config with volume := int16 (config.volume + 500) }, chip8)
    else some (config, chip8)
  | Scancode.ScancodeJ => some (config, chip8)
  | Scancode.ScancodeK => some (config, chip8)
  | sc =>
    match keymap sc with
    | some chip8Key => some (config, { chip8 with keypad := upd chip8.keypad chip8Key true })
    | none => some (config, chip8)

/-- The method `Keyboard.OnKeyUp` (keyboard.go 108-112). -/
def OnKeyUp (chip8 : CHIP8) (sc : Scancode) : CHIP8 :=
  match keymap sc with
  | some chip8Key => { chip8 with keypad := upd chip8.keypad chip8Key false }
  | none => chip8

/-- The events that `Keyboard.HandleInput` distinguishes. -/
inductive Event
  | EventQuit
  | EventKeyDown (sc : Scancode)
  | EventKeyUp (sc : Scancode)
  | Other

/-- The method `Keyboard.HandleInput` (keyboard.go 44-59) on the queue of pending events
that `sdl.PollEvent` hands out one by one. -/
def HandleInput (file : Option (List Nat)) : List Event → Config → CHIP8 → Option (Config × CHIP8)
  | [], config, chip8 => some (config, chip8)
  | Event.EventQuit :: _, config, chip8 =>
    some (config, { chip8 with state := EmulatorState.QUIT })
  | Event.EventKeyDown sc :: rest, config, chip8 =>
    match OnKeyDown file config chip8 sc with
    | none => none
    | some (config1, c1) => HandleInput file rest config1 c1
  | Event.EventKeyUp sc :: rest, config, chip8 =>
    HandleInput file rest config (OnKeyUp chip8 sc)
  | Event.Other :: rest, config, chip8 => HandleInput file rest config chip8

/-! ## More machines used in the examples -/

/-- Scenario 2 of the specification: RAM from `0x200` on holds `22 06 00 00 00 00 00 EE`. -/
def callMachine : CHIP8 :=
  { blank with ram := upd (upd (upd blank.ram 0x200 0x22) 0x201 0x06) 0x207 0xEE }

/-- The opcode `E09E` with `V[0] = 0x10`. -/
def keyIndexMachine : CHIP8 :=
  machine 0xE0 0x9E (upd (fun _ => 0) 0 0x10) 0 (fun _ => false)

/-- The opcode `F00A` with no key held. -/
def keyWaitMachine : CHIP8 :=
  machine 0xF0 0x0A (fun _ => 0) 0 (fun _ => false)

/-- The opcode `8018`, which no case of the `8XYN` switch handles. -/
def undefinedMachine : CHIP8 :=
  machine 0x80 0x18 (upd (fun _ => 0) 1 7) 0 (fun _ => false)

/-! ## Auxiliary facts: arrays and bit operations -/

theorem upd_same {α : Type} (a : Nat → α) (i : Nat) (v : α) : upd a i v i = v := by
  simp [upd]

theorem upd_other {α : Type} (a : Nat → α) (i j : Nat) (v : α) (h : j ≠ i) : upd a i v j = a j := by
  simp [upd, h]

theorem upd_upd {α : Type} (a : Nat → α) (i : Nat) (v w : α) :
    upd (upd a i v) i w = upd a i w := by
  funext j
  simp only [upd]
  split <;> rfl

theorem upd_lt (a : Nat → Nat) (i v n : Nat) (ha : ∀ j, a j < n) (hv : v < n) :
    ∀ j, upd a i v j < n := by
  intro j
  unfold upd
  split
  · exact hv
  · exact ha j

theorem and_0F (x : Nat) : x &&& 0x0F = x % 16 := Nat.and_pow_two_sub_one_eq_mod x 4

theorem and_0FF (x : Nat) : x &&& 0x0FF = x % 256 := Nat.and_pow_two_sub_one_eq_mod x 8

theorem and_0FFF (x : Nat) : x &&& 0x0FFF = x % 4096 := Nat.and_pow_two_sub_one_eq_mod x 12

theorem shiftRight_and (x m k : Nat) : (x &&& m) >>> k = (x >>> k) &&& (m >>> k) := by
  apply Nat.eq_of_testBit_eq
  intro i
  simp only [Nat.testBit_shiftRight, Nat.testBit_and]

theorem and_0F00_shift (x : Nat) : (x &&& 0x0F00) >>> 8 = x / 256 % 16 := by
  rw [shiftRight_and]
  show x >>> 8 &&& 15 = _
  rw [and_0F, Nat.shiftRight_eq_div_pow]

theorem and_00F0_shift (x : Nat) : (x &&& 0x00F0) >>> 4 = x / 16 % 16 := by
  rw [shiftRight_and]
  show x >>> 4 &&& 15 = _
  rw [and_0F, Nat.shiftRight_eq_div_pow]

theorem high_nibble (op : Nat) : (op >>> 12) &&& 0x0F = op / 4096 % 16 := by
  rw [and_0F, Nat.shiftRight_eq_div_pow]

theorem fetch_or (a b : Nat) (ha : a < 256) (hb : b < 256) :
    ((a <<< 8) % 65536) ||| b = a * 256 + b := by
  rw [Nat.shiftLeft_eq, Nat.mod_eq_of_lt (by omega)]
  have := Nat.mul_add_lt_is_or (show b < 2 ^ 8 by omega) a
  rw [Nat.mul_comm] at this
  exact this.symm

theorem and_two_pow_ne_zero (data c : Nat) : ((data &&& 2 ^ c) != 0) = data.testBit c := by
  cases h : data.testBit c with
  | true =>
    have : (data &&& 2 ^ c).testBit c = true := by
      rw [Nat.testBit_and, h, Nat.testBit_two_pow_self]; rfl
    have hne : data &&& 2 ^ c ≠ 0 := by
      intro h0
      rw [h0] at this
      simp at this
    simpa using hne
  | false =>
    have : data &&& 2 ^ c = 0 := by
      apply Nat.eq_of_testBit_eq
      intro i
      rw [Nat.testBit_and, Nat.zero_testBit, Nat.testBit_two_pow]
      by_cases hi : c = i
      · subst hi; rw [h]; rfl
      · simp [hi]
    simp [this]

/-- The test `spriteData & (1 << col) != 0` reads bit `col`. -/
theorem spriteBit_eq (data col : Nat) (hcol : col < 8) :
    ((data &&& ((1 <<< col) % 256)) != 0) = data.testBit col := by
  have : (1 <<< col) % 256 = 2 ^ col := by
    rw [Nat.one_shiftLeft]
    apply Nat.mod_eq_of_lt
    calc 2 ^ col < 2 ^ 8 := Nat.pow_lt_pow_right (by decide) hcol
      _ = 256 := by decide
  rw [this, and_two_pow_ne_zero]

theorem uint8_64 : uint8 64 = 64 := by decide

theorem uint8_32 : uint8 32 = 32 := by decide

/-! ## Fetch and decode -/

/-- The masks and shifts of `decode` as quotients and remainders. -/
theorem decode_eq (op : Nat) :
    decode op = { opcode := op, NNN := op % 4096, NN := op % 256, N := op % 16,
                  X := op / 256 % 16, Y := op / 16 % 16 } := by
  simp only [decode, and_0F, and_0FF, and_0FFF, and_0F00_shift, and_00F0_shift]
  congr 1 <;> omega

theorem decode_nibbles (hi X Y N : Nat) (hX : X < 16) (hY : Y < 16) (hN : N < 16) :
    decode ((hi * 16 + X) * 256 + (Y * 16 + N)) = instOf hi X Y N := by
  rw [decode_eq, instOf, Instruction.mk.injEq]
  refine ⟨?_, ?_, ?_, ?_, ?_, ?_⟩ <;> omega

/-- The fetch: when the two bytes at `PC` are the nibbles `hi X`, `Y N`, the instruction
record is `instOf hi X Y N` and the dispatch runs with `PC` advanced by 2. -/
theorem ExecuteInstruction_eq (config : Config) (rnd : Nat) (s : CHIP8)
    (hi X Y N : Nat) (hhi : hi < 16) (hX : X < 16) (hY : Y < 16) (hN : N < 16)
    (hPC : s.PC + 1 < 4096) (h0 : s.ram s.PC = hi * 16 + X) (h1 : s.ram (s.PC + 1) = Y * 16 + N) :
    ExecuteInstruction config rnd s =
      dispatch config rnd (instOf hi X Y N) { s with PC := s.PC + 2, inst := instOf hi X Y N } := by
  unfold ExecuteInstruction
  have e1 : (s.PC + 1) % 65536 = s.PC + 1 := by omega
  have e2 : (s.PC + 2) % 65536 = s.PC + 2 := by omega
  rw [if_pos (by omega)]
  dsimp only
  rw [e1, e2, h0, h1, fetch_or _ _ (by omega) (by omega),
    decode_nibbles hi X Y N hX hY hN]

theorem instOf_high (hi X Y N : Nat) (hhi : hi < 16) (hX : X < 16) (hY : Y < 16) (hN : N < 16) :
    ((instOf hi X Y N).opcode >>> 12) &&& 0x0F = hi := by
  rw [high_nibble]; simp only [instOf]; omega

/-- An opcode `8XYN` is executed by `execALU`. -/
theorem exec_8XYN (config : Config) (rnd : Nat) (s : CHIP8)
    (X Y N : Nat) (hX : X < 16) (hY : Y < 16) (hN : N < 16)
    (hPC : s.PC + 1 < 4096) (h0 : s.ram s.PC = 0x80 + X) (h1 : s.ram (s.PC + 1) = Y * 16 + N) :
    ExecuteInstruction config rnd s =
      some (execALU config (instOf 8 X Y N) { s with PC := s.PC + 2, inst := instOf 8 X Y N }) := by
  rw [ExecuteInstruction_eq config rnd s 8 X Y N (by omega) hX hY hN hPC (by omega) h1]
  unfold dispatch
  rw [instOf_high 8 X Y N (by omega) hX hY hN]

/-- An opcode `DXYN` is executed by `execDraw`. -/
theorem exec_DXYN (config : Config) (rnd : Nat) (s : CHIP8)
    (X Y N : Nat) (hX : X < 16) (hY : Y < 16) (hN : N < 16)
    (hPC : s.PC + 1 < 4096) (h0 : s.ram s.PC = 0xD0 + X) (h1 : s.ram (s.PC + 1) = Y * 16 + N) :
    ExecuteInstruction config rnd s =
      execDraw config (instOf 13 X Y N) { s with PC := s.PC + 2, inst := instOf 13 X Y N } := by
  rw [ExecuteInstruction_eq config rnd s 13 X Y N (by omega) hX hY hN hPC (by omega) h1]
  unfold dispatch
  rw [instOf_high 13 X Y N (by omega) hX hY hN]

/-- An opcode `FXNN` is executed by `execMisc`. -/
theorem exec_FXNN (config : Config) (rnd : Nat) (s : CHIP8)
    (X Y N : Nat) (hX : X < 16) (hY : Y < 16) (hN : N < 16)
    (hPC : s.PC + 1 < 4096) (h0 : s.ram s.PC = 0xF0 + X) (h1 : s.ram (s.PC + 1) = Y * 16 + N) :
    ExecuteInstruction config rnd s =
      execMisc config (instOf 15 X Y N) { s with PC := s.PC + 2, inst := instOf 15 X Y N } := by
  rw [ExecuteInstruction_eq config rnd s 15 X Y N (by omega) hX hY hN hPC (by omega) h1]
  unfold dispatch
  rw [instOf_high 15 X Y N (by omega) hX hY hN]

/-- The example machines hold values of the Go types. -/
theorem machine_wellTyped (b0 b1 : Nat) (V : Nat → Nat) (I : Nat) (keypad : Nat → Bool)
    (h0 : b0 < 256) (h1 : b1 < 256) (hV : ∀ i, V i < 256) (hI : I < 65536) :
    (machine b0 b1 V I keypad).WellTyped where
  ram_lt := upd_lt _ _ _ _ (upd_lt _ _ _ _ (fun _ => Nat.zero_lt_succ _) h0) h1
  V_lt := hV
  stack_lt := fun _ => Nat.zero_lt_succ _
  stackPointer_lt := Nat.zero_lt_succ _
  I_lt := hI
  PC_lt := show 0x200 < 65536 by decide
  delayTimer_lt := Nat.zero_lt_succ _
  soundTimer_lt := Nat.zero_lt_succ _

/-! ## The arithmetic group `8XYN` -/

/-- C1: for `8XY4`, `8XY5` and `8XY7`, with any `X`, `Y` in `0..15` and any byte registers,
`V[0xF]` ends as the carry / no-borrow flag of the operands read before the instruction,
`V[X]` (when `X` is not `0xF`) ends as the sum or difference modulo 256, and every other
register keeps its value. -/
theorem alu_add_sub_flag (config : Config) (rnd : Nat) (s : CHIP8) (X Y N : Nat)
    (wt : s.WellTyped) (hX : X < 16) (hY : Y < 16) (hN : N = 4 ∨ N = 5 ∨ N = 7)
    (hPC : s.PC + 1 < 4096) (h0 : s.ram s.PC = 0x80 + X) (h1 : s.ram (s.PC + 1) = Y * 16 + N) :
    ∃ s', ExecuteInstruction config rnd s = some s' ∧
      (N = 4 → s'.V 0xF = (if s.V X + s.V Y > 255 then 1 else 0) ∧
        (X ≠ 0xF → s'.V X = (s.V X + s.V Y) % 256)) ∧
      (N = 5 → s'.V 0xF = (if s.V X ≥ s.V Y then 1 else 0) ∧
        (X ≠ 0xF → (s'.V X : Int) = ((s.V X : Int) - (s.V Y : Int)) % 256)) ∧
      (N = 7 → s'.V 0xF = (if s.V Y ≥ s.V X then 1 else 0) ∧
        (X ≠ 0xF → (s'.V X : Int) = ((s.V Y : Int) - (s.V X : Int)) % 256)) ∧
      (∀ i, i ≠ X → i ≠ 0xF → s'.V i = s.V i) := by
  have hx := wt.V_lt X
  have hy := wt.V_lt Y
  refine ⟨_, exec_8XYN config rnd s X Y N hX hY (by omega) hPC h0 h1, ?_⟩
  rcases hN with rfl | rfl | rfl
  · have e : (s.V X + s.V Y) % 65536 = s.V X + s.V Y := by omega
    simp only [execALU, instOf, e]
    refine ⟨fun _ => ⟨?_, fun hne => ?_⟩, fun h => by omega, fun h => by omega, fun i hi hF => ?_⟩
    · by_cases hc : s.V X + s.V Y > 255 <;> simp [hc, upd_same]
    · by_cases hc : s.V X + s.V Y > 255 <;> simp [hc, upd_same, upd_other _ _ _ _ hne]
    · by_cases hc : s.V X + s.V Y > 255 <;> simp [hc, upd_other _ _ _ _ hi, upd_other _ _ _ _ hF]
  · simp only [execALU, instOf]
    refine ⟨fun h => by omega, fun _ => ⟨?_, fun hne => ?_⟩, fun h => by omega, fun i hi hF => ?_⟩
    · by_cases hc : s.V Y ≤ s.V X <;> simp [hc, upd_same]
    · by_cases hc : s.V Y ≤ s.V X <;> simp [hc, upd_same, upd_other _ _ _ _ hne] <;> omega
    · by_cases hc : s.V Y ≤ s.V X <;> simp [hc, upd_other _ _ _ _ hi, upd_other _ _ _ _ hF]
  · simp only [execALU, instOf]
    refine ⟨fun h => by omega, fun h => by omega, fun _ => ⟨?_, fun hne => ?_⟩, fun i hi hF => ?_⟩
    · by_cases hc : s.V X ≤ s.V Y <;> simp [hc, upd_same]
    · by_cases hc : s.V X ≤ s.V Y <;> simp [hc, upd_same, upd_other _ _ _ _ hne] <;> omega
    · by_cases hc : s.V X ≤ s.V Y <;> simp [hc, upd_other _ _ _ _ hi, upd_other _ _ _ _ hF]

theorem addCarryMachine_wellTyped : addCarryMachine.WellTyped :=
  machine_wellTyped _ _ _ _ _ (by decide) (by decide)
    (upd_lt _ _ _ _ (upd_lt _ _ _ _ (fun _ => by decide) (by decide)) (by decide)) (by decide)

theorem subBorrowMachine_wellTyped : subBorrowMachine.WellTyped :=
  machine_wellTyped _ _ _ _ _ (by decide) (by decide)
    (upd_lt _ _ _ _ (upd_lt _ _ _ _ (fun _ => by decide) (by decide)) (by decide)) (by decide)

/-- Scenarios 3 and 4 of the specification, obtained from `alu_add_sub_flag`: `8EF4` with
`V[0xE] = 0xFF` and `V[0xF] = 1` leaves `V[0xE] = 0` and `V[0xF] = 1`; `8F05` with
`V[0] = 2` and `V[0xF] = 5` leaves `V[0xF] = 1`. -/
theorem alu_add_sub_flag_witness :
    (addCarryMachine.V 0xE = 0xFF ∧ addCarryMachine.V 0xF = 1 ∧
      ∃ s', ExecuteInstruction (defaultConfig Extension.CHIP_8) 0 addCarryMachine = some s' ∧
        s'.V 0xE = 0 ∧ s'.V 0xF = 1) ∧
    (subBorrowMachine.V 0 = 2 ∧ subBorrowMachine.V 0xF = 5 ∧
      ∃ s', ExecuteInstruction (defaultConfig Extension.CHIP_8) 0 subBorrowMachine = some s' ∧
        s'.V 0xF = 1) := by
  obtain ⟨s', hs, h4, -, -, -⟩ :=
    alu_add_sub_flag (defaultConfig Extension.CHIP_8) 0 addCarryMachine 0xE 0xF 4
      addCarryMachine_wellTyped (by decide) (by decide) (by decide) (by decide) (by decide)
      (by decide)
  obtain ⟨t', ht, -, h5, -, -⟩ :=
    alu_add_sub_flag (defaultConfig Extension.CHIP_8) 0 subBorrowMachine 0xF 0 5
      subBorrowMachine_wellTyped (by decide) (by decide) (by decide) (by decide) (by decide)
      (by decide)
  exact ⟨⟨by decide, by decide, s', hs, (h4 rfl).2 (by decide), (h4 rfl).1⟩,
    ⟨by decide, by decide, t', ht, (h5 rfl).1⟩⟩

/-- C6: for `8XY6`, under the CHIP-8 quirk `V[0xF]` ends as the lowest bit of the old `V[Y]`
and `V[X]` (when `X` is not `0xF`) as the old `V[Y]` halved; under any other quirk the same
holds with the old `V[X]` in place of `V[Y]`.  The flag is what remains when `X = 0xF`. -/
theorem shr_quirk (config : Config) (rnd : Nat) (s : CHIP8) (X Y : Nat)
    (hX : X < 16) (hY : Y < 16)
    (hPC : s.PC + 1 < 4096) (h0 : s.ram s.PC = 0x80 + X) (h1 : s.ram (s.PC + 1) = Y * 16 + 6) :
    ∃ s', ExecuteInstruction config rnd s = some s' ∧
      (config.currentExtension = Extension.CHIP_8 →
        s'.V 0xF = s.V Y % 2 ∧ (X ≠ 0xF → s'.V X = s.V Y / 2)) ∧
      (config.currentExtension ≠ Extension.CHIP_8 →
        s'.V 0xF = s.V X % 2 ∧ (X ≠ 0xF → s'.V X = s.V X / 2)) := by
  refine ⟨_, exec_8XYN config rnd s X Y 6 hX hY (by omega) hPC h0 h1, ?_, ?_⟩
  · intro hc
    simp only [execALU, instOf, hc, if_true, upd_same, Nat.and_one_is_mod, true_and]
    intro hne
    rw [upd_other _ _ _ _ hne, upd_same, Nat.shiftRight_eq_div_pow]
  · intro hc
    simp only [execALU, instOf, hc, if_false, upd_same, Nat.and_one_is_mod, true_and]
    intro hne
    rw [upd_other _ _ _ _ hne, upd_same, Nat.shiftRight_eq_div_pow]

/-- Scenario 5 of the specification, obtained from `shr_quirk`, under both quirks. -/
theorem shr_quirk_witness :
    (shiftRightYMachine.V 0 = 0 ∧ shiftRightYMachine.V 1 = 0x81 ∧
      ∃ s', ExecuteInstruction (defaultConfig Extension.CHIP_8) 0 shiftRightYMachine = some s' ∧
        s'.V 0 = 0x40 ∧ s'.V 0xF = 1) ∧
    (shiftRightXMachine.V 0 = 0x81 ∧
      ∃ s', ExecuteInstruction (defaultConfig Extension.SUPERCHIP) 0 shiftRightXMachine = some s' ∧
        s'.V 0 = 0x40 ∧ s'.V 0xF = 1) := by
  obtain ⟨s', hs, hc, -⟩ :=
    shr_quirk (defaultConfig Extension.CHIP_8) 0 shiftRightYMachine 0 1
      (by decide) (by decide) (by decide) (by decide) (by decide)
  obtain ⟨t', ht, -, hn⟩ :=
    shr_quirk (defaultConfig Extension.SUPERCHIP) 0 shiftRightXMachine 0 0
      (by decide) (by decide) (by decide) (by decide) (by decide)
  exact ⟨⟨by decide, by decide, s', hs, (hc rfl).2 (by decide), (hc rfl).1⟩,
    ⟨by decide, t', ht, (hn (by decide)).2 (by decide), (hn (by decide)).1⟩⟩

/-- C7: for `8XY1`, `8XY2` and `8XY3`, under the CHIP-8 quirk `V[0xF]` ends as 0 and `V[X]`
(when `X` is not `0xF`) as the OR / AND / XOR of the old `V[X]` and `V[Y]`; under any other
quirk `V[0xF]` keeps its value unless `X = 0xF`, when it receives the result. -/
theorem bitwise_quirk (config : Config) (rnd : Nat) (s : CHIP8) (X Y N : Nat)
    (hX : X < 16) (hY : Y < 16) (hN : N = 1 ∨ N = 2 ∨ N = 3)
    (hPC : s.PC + 1 < 4096) (h0 : s.ram s.PC = 0x80 + X) (h1 : s.ram (s.PC + 1) = Y * 16 + N) :
    ∃ s', ExecuteInstruction config rnd s = some s' ∧
      (config.currentExtension = Extension.CHIP_8 →
        s'.V 0xF = 0 ∧
        (X ≠ 0xF →
          (N = 1 → s'.V X = s.V X ||| s.V Y) ∧
          (N = 2 → s'.V X = s.V X &&& s.V Y) ∧
          (N = 3 → s'.V X = s.V X ^^^ s.V Y))) ∧
      (config.currentExtension ≠ Extension.CHIP_8 →
        (X ≠ 0xF → s'.V 0xF = s.V 0xF) ∧
        (X = 0xF →
          (N = 1 → s'.V 0xF = s.V 0xF ||| s.V Y) ∧
          (N = 2 → s'.V 0xF = s.V 0xF &&& s.V Y) ∧
          (N = 3 → s'.V 0xF = s.V 0xF ^^^ s.V Y))) := by
  refine ⟨_, exec_8XYN config rnd s X Y N hX hY (by omega) hPC h0 h1, ?_, ?_⟩
  · intro hc
    rcases hN with rfl | rfl | rfl <;>
      simp only [execALU, instOf, hc, if_true, upd_same, true_and] <;>
      intro hne <;> simp [upd_other _ _ _ _ hne, upd_same]
  · intro hc
    rcases hN with rfl | rfl | rfl <;>
      simp only [execALU, instOf, hc, if_false] <;>
      refine ⟨fun hne => upd_other _ _ _ _ (Ne.symm hne), fun he => ?_⟩ <;>
      subst he <;> simp [upd_same]

/-- An instance of `bitwise_quirk`: `8011` with `V[0] = 0x0C`, `V[1] = 0x0A`, `V[0xF] = 7`
under the CHIP-8 quirk leaves `V[0] = 0x0E` and `V[0xF] = 0`. -/
theorem bitwise_quirk_witness :
    orMachine.V 0 = 0x0C ∧ orMachine.V 1 = 0x0A ∧ orMachine.V 0xF = 7 ∧
      ∃ s', ExecuteInstruction (defaultConfig Extension.CHIP_8) 0 orMachine = some s' ∧
        s'.V 0 = 0x0E ∧ s'.V 0xF = 0 := by
  obtain ⟨s', hs, hc, -⟩ :=
    bitwise_quirk (defaultConfig Extension.CHIP_8) 0 orMachine 0 1 1
      (by decide) (by decide) (by decide) (by decide) (by decide) (by decide)
  exact ⟨by decide, by decide, by decide, s', hs, ((hc rfl).2 (by decide)).1 rfl, (hc rfl).1⟩

/-- What `8XYE` does under either quirk: the flag is the top bit of the old `V[Y]`. -/
theorem shl_flag_eq (config : Config) (rnd : Nat) (s : CHIP8) (X Y : Nat)
    (wt : s.WellTyped) (hX : X < 16) (hY : Y < 16)
    (hPC : s.PC + 1 < 4096) (h0 : s.ram s.PC = 0x80 + X) (h1 : s.ram (s.PC + 1) = Y * 16 + 0xE) :
    ∃ s', ExecuteInstruction config rnd s = some s' ∧ s'.V 0xF = s.V Y / 128 := by
  have hy := wt.V_lt Y
  have e : (s.V Y &&& 0x80) >>> 7 = s.V Y / 128 := by
    rw [shiftRight_and]
    show s.V Y >>> 7 &&& 1 = _
    rw [Nat.and_one_is_mod, Nat.shiftRight_eq_div_pow]
    show s.V Y / 128 % 2 = _
    omega
  refine ⟨_, exec_8XYN config rnd s X Y 0xE hX hY (by omega) hPC h0 h1, ?_⟩
  by_cases hc : config.currentExtension = Extension.CHIP_8
  · simp only [execALU, instOf, hc, if_true, upd_same, e]
  · simp only [execALU, instOf, hc, if_false, upd_same, e]

/-- C5: the code evaluated on `801E` under the SUPERCHIP quirk with `V[0] = 0x80` and
`V[1] = 0`.  The most significant bit of `V[0]` is 1, yet `V[0xF]` ends as 0: the flag is
read from `V[Y]`. -/
theorem shl_quirk_flag_from_VY :
    shiftLeftMachine.V 0 = 0x80 ∧
    (ExecuteInstruction (defaultConfig Extension.SUPERCHIP) 0 shiftLeftMachine).map
      (fun s' => (s'.V 0, s'.V 0xF)) = some (0, 0) := by
  decide

/-! ## The sprite blit `DXYN` -/

/-- On the 64x32 display `SetPixel` never faults on a cell inside the display. -/
theorem SetPixel_eq (config : Config) (h64 : config.window_width = 64)
    (h32 : config.window_height = 32) (s : CHIP8) (x y : Nat) (b : Bool)
    (hx : x < 64) (hy : y < 32) :
    SetPixel config s x y b =
      some ({ s with display := upd s.display (y * 64 + x) (s.display (y * 64 + x) != b) },
            b && s.display (y * 64 + x)) := by
  unfold SetPixel
  simp only [h64, h32, uint8_64, uint8_32]
  rw [if_neg (by omega), Nat.mod_eq_of_lt hx, Nat.mod_eq_of_lt hy, if_pos (by omega)]

theorem rowHit_congr (d d' : Nat → Bool) (data y : Nat) :
    ∀ n x, (∀ i, y * 64 + x ≤ i → d i = d' i) → rowHit d data y n x = rowHit d' data y n x := by
  intro n
  induction n with
  | zero => intro x _; rfl
  | succ n ih =>
    intro x h
    simp only [rowHit]
    rw [h _ (Nat.le_refl _), ih (x + 1) (fun i hi => h i (by omega))]

theorem rowDisplay_last (d : Nat → Bool) (data y n x : Nat) (hx : x < 64) (hedge : x + 1 ≥ 64) :
    rowDisplay d data y (n + 1) x =
      upd d (y * 64 + x) (d (y * 64 + x) != data.testBit n) := by
  funext i
  simp only [rowDisplay, upd]
  by_cases hi : i = y * 64 + x
  · subst hi
    rw [if_pos (by omega), if_pos rfl]
    congr 2
    omega
  · rw [if_neg (by omega), if_neg hi]

theorem rowDisplay_step (d : Nat → Bool) (data y n x : Nat) (hedge : ¬ x + 1 ≥ 64) :
    rowDisplay (upd d (y * 64 + x) (d (y * 64 + x) != data.testBit n)) data y n (x + 1) =
      rowDisplay d data y (n + 1) x := by
  funext i
  simp only [rowDisplay, upd]
  by_cases hi : i = y * 64 + x
  · subst hi
    rw [if_neg (by omega), if_pos rfl, if_pos (by omega)]
    congr 2
    omega
  · rw [if_neg hi]
    by_cases hr : y * 64 + (x + 1) ≤ i ∧ i < y * 64 + min (x + 1 + n) 64
    · rw [if_pos hr, if_pos (by omega)]
      congr 2
      omega
    · rw [if_neg hr, if_neg (by omega)]

theorem rowHit_upd (d : Nat → Bool) (data y n x : Nat) (v : Bool) :
    rowHit (upd d (y * 64 + x) v) data y n (x + 1) = rowHit d data y n (x + 1) :=
  rowHit_congr _ _ data y n (x + 1) (fun i hi => upd_other _ _ _ _ (by omega))

/-- The inner loop of `DXYN` computes `rowDisplay` and `rowHit`. -/
theorem drawRow_eq (config : Config) (h64 : config.window_width = 64)
    (h32 : config.window_height = 32) (data y : Nat) (hy : y < 32) :
    ∀ n x (s : CHIP8), n ≤ 8 → x < 64 →
      drawRow config data y n x s =
        some { s with
                 display := rowDisplay s.display data y n x
                 V := if rowHit s.display data y n x then upd s.V 0xF 1 else s.V } := by
  intro n
  induction n with
  | zero =>
    intro x s _ hx
    simp only [drawRow, rowHit, Option.some.injEq]
    cases s
    simp only [CHIP8.mk.injEq, true_and, and_true, Bool.false_eq_true, if_false]
    funext i
    simp only [rowDisplay]
    rw [if_neg (by omega)]
  | succ n ih =>
    intro x s hn hx
    have e1 : (x + 1) % 256 = x + 1 := by omega
    simp only [drawRow]
    rw [spriteBit_eq data n (by omega), SetPixel_eq config h64 h32 s x y _ hx hy]
    simp only [h64, uint8_64, e1, rowHit]
    by_cases hedge : x + 1 ≥ 64
    · rw [if_pos hedge, rowDisplay_last _ _ _ _ _ hx hedge]
      have hlt : ¬ x + 1 < 64 := by omega
      simp only [hlt, decide_False, Bool.false_and, Bool.or_false]
      by_cases hc : (data.testBit n && s.display (y * 64 + x)) = true
      · simp only [hc, if_true]
      · rw [Bool.not_eq_true] at hc
        simp only [hc, Bool.false_eq_true, if_false]
    · rw [if_neg hedge, ih (x + 1) _ (by omega) (by omega)]
      have hlt : x + 1 < 64 := by omega
      simp only [hlt, decide_True, Bool.true_and]
      by_cases hc : (data.testBit n && s.display (y * 64 + x)) = true
      · simp only [hc, if_true, Bool.true_or, upd_upd, ite_self, rowDisplay_step _ _ _ _ _ hedge]
      · rw [Bool.not_eq_true] at hc
        simp only [hc, Bool.false_eq_true, if_false, Bool.false_or, rowHit_upd,
          rowDisplay_step _ _ _ _ _ hedge]

theorem rowDisplay_below (d : Nat → Bool) (data y n x i : Nat) (hi : (y + 1) * 64 ≤ i) :
    rowDisplay d data y n x i = d i := by
  simp only [rowDisplay]
  rw [if_neg (by omega)]

theorem spriteHit_congr (d d' : Nat → Bool) (ram : Nat → Nat) (I x0 : Nat) :
    ∀ n row y, (∀ i, y * 64 ≤ i → d i = d' i) →
      spriteHit d ram I x0 n row y = spriteHit d' ram I x0 n row y := by
  intro n
  induction n with
  | zero => intro row y _; rfl
  | succ n ih =>
    intro row y h
    simp only [spriteHit]
    rw [rowHit_congr d d' _ y 8 x0 (fun i hi => h i (by omega)),
      ih (row + 1) (y + 1) (fun i hi => h i (by omega))]

theorem spriteDisplay_last (d : Nat → Bool) (ram : Nat → Nat) (I x0 n row y : Nat)
    (hy : y < 32) (hedge : y + 1 ≥ 32) :
    spriteDisplay d ram I x0 (n + 1) row y = rowDisplay d (ram (I + row)) y 8 x0 := by
  funext i
  simp only [spriteDisplay, rowDisplay]
  by_cases hr : y ≤ i / 64 ∧ i / 64 < min (y + (n + 1)) 32 ∧ x0 ≤ i % 64 ∧ i % 64 < min (x0 + 8) 64
  · rw [if_pos hr, if_pos (by omega)]
    have e1 : I + row + (i / 64 - y) = I + row := by omega
    have e2 : 7 - (i % 64 - x0) = 8 - 1 - (i - (y * 64 + x0)) := by omega
    rw [e1, e2]
  · rw [if_neg hr, if_neg (by omega)]

theorem spriteDisplay_step (d : Nat → Bool) (ram : Nat → Nat) (I x0 n row y : Nat)
    (hedge : ¬ y + 1 ≥ 32) :
    spriteDisplay (rowDisplay d (ram (I + row)) y 8 x0) ram I x0 n (row + 1) (y + 1) =
      spriteDisplay d ram I x0 (n + 1) row y := by
  funext i
  simp only [spriteDisplay]
  by_cases hx : x0 ≤ i % 64 ∧ i % 64 < min (x0 + 8) 64
  · by_cases h1 : i / 64 = y
    · rw [if_neg (by omega), if_pos (by omega)]
      simp only [rowDisplay]
      rw [if_pos (by omega)]
      have e1 : I + row + (i / 64 - y) = I + row := by omega
      have e2 : 7 - (i % 64 - x0) = 8 - 1 - (i - (y * 64 + x0)) := by omega
      rw [e1, e2]
    · by_cases h2 : y + 1 ≤ i / 64 ∧ i / 64 < min (y + 1 + n) 32
      · rw [if_pos (by omega), if_pos (by omega), rowDisplay_below _ _ _ _ _ _ (by omega)]
        have e1 : I + (row + 1) + (i / 64 - (y + 1)) = I + row + (i / 64 - y) := by omega
        rw [e1]
      · rw [if_neg (by omega), if_neg (by omega)]
        simp only [rowDisplay]
        rw [if_neg (by omega)]
  · rw [if_neg (by omega), if_neg (by omega)]
    simp only [rowDisplay]
    rw [if_neg (by omega)]

/-- The outer loop of `DXYN` computes `spriteDisplay` and `spriteHit`. -/
theorem drawSprite_eq (config : Config) (h64 : config.window_width = 64)
    (h32 : config.window_height = 32) (x0 : Nat) (hx0 : x0 < 64) :
    ∀ n row y (s : CHIP8), y < 32 → s.I + row + n ≤ 4096 → row + n ≤ 255 →
      drawSprite config x0 n row y s =
        some { s with
                 display := spriteDisplay s.display s.ram s.I x0 n row y
                 V := if spriteHit s.display s.ram s.I x0 n row y then upd s.V 0xF 1 else s.V } := by
  intro n
  induction n with
  | zero =>
    intro row y s _ _ _
    simp only [drawSprite, spriteHit, Option.some.injEq]
    cases s
    simp only [CHIP8.mk.injEq, true_and, and_true, Bool.false_eq_true, if_false]
    funext i
    simp only [spriteDisplay]
    rw [if_neg (by omega)]
  | succ n ih =>
    intro row y s hy hI hrow
    have e1 : (s.I + row) % 65536 = s.I + row := by omega
    have e2 : (y + 1) % 256 = y + 1 := by omega
    have e3 : (row + 1) % 256 = row + 1 := by omega
    simp only [drawSprite, e1, e2, e3, h32, uint8_32, spriteHit]
    rw [if_pos (by omega), drawRow_eq config h64 h32 _ y hy 8 x0 s (Nat.le_refl _) hx0]
    simp only
    by_cases hedge : y + 1 ≥ 32
    · rw [if_pos hedge, spriteDisplay_last _ _ _ _ _ _ _ hy hedge]
      have hlt : ¬ y + 1 < 32 := by omega
      simp only [hlt, decide_False, Bool.false_and, Bool.or_false]
    · rw [if_neg hedge, ih (row + 1) (y + 1) _ (by omega) (by simp only; omega) (by omega)]
      have hlt : y + 1 < 32 := by omega
      simp only [hlt, decide_True, Bool.true_and, spriteDisplay_step _ _ _ _ _ _ _ hedge]
      rw [spriteHit_congr (rowDisplay s.display (s.ram (s.I + row)) y 8 x0) s.display s.ram s.I x0
        n (row + 1) (y + 1) (fun i hi => rowDisplay_below _ _ _ _ _ _ hi)]
      by_cases hc : rowHit s.display (s.ram (s.I + row)) y 8 x0 = true
      · simp only [hc, if_true, Bool.true_or, upd_upd, ite_self]
      · rw [Bool.not_eq_true] at hc
        simp only [hc, Bool.false_eq_true, if_false, Bool.false_or]

/-- The row flag is raised exactly when some drawn cell of the row was lit and has its
bit set. -/
theorem rowHit_iff (d : Nat → Bool) (data y : Nat) :
    ∀ n x, x < 64 → (rowHit d data y n x = true ↔
      ∃ j, j < n ∧ x + j < 64 ∧ data.testBit (n - 1 - j) = true ∧ d (y * 64 + x + j) = true) := by
  intro n
  induction n with
  | zero => intro x _; simp [rowHit]
  | succ n ih =>
    intro x hx
    simp only [rowHit, Bool.or_eq_true, Bool.and_eq_true, decide_eq_true_eq]
    constructor
    · rintro (⟨hb, hd⟩ | ⟨hlt, hr⟩)
      · exact ⟨0, by omega, by omega, by simpa using hb, by simpa using hd⟩
      · obtain ⟨j, hj, hj2, hb, hd⟩ := (ih (x + 1) hlt).mp hr
        refine ⟨j + 1, by omega, by omega, ?_, ?_⟩
        · have : n + 1 - 1 - (j + 1) = n - 1 - j := by omega
          rw [this]; exact hb
        · have : y * 64 + x + (j + 1) = y * 64 + (x + 1) + j := by omega
          rw [this]; exact hd
    · rintro ⟨j, hj, hj2, hb, hd⟩
      cases j with
      | zero => exact Or.inl ⟨by simpa using hb, by simpa using hd⟩
      | succ j =>
        refine Or.inr ⟨by omega, (ih (x + 1) (by omega)).mpr ⟨j, by omega, by omega, ?_, ?_⟩⟩
        · have : n + 1 - 1 - (j + 1) = n - 1 - j := by omega
          rw [← this]; exact hb
        · have : y * 64 + x + (j + 1) = y * 64 + (x + 1) + j := by omega
          rw [← this]; exact hd

/-- The sprite flag is raised exactly when some drawn cell was lit and has its bit set. -/
theorem spriteHit_iff (d : Nat → Bool) (ram : Nat → Nat) (I x0 : Nat) (hx0 : x0 < 64) :
    ∀ n row y, spriteHit d ram I x0 n row y = true ↔
      ∃ r, r < n ∧ (r = 0 ∨ y + r < 32) ∧ ∃ j, j < 8 ∧ x0 + j < 64 ∧
        (ram (I + row + r)).testBit (7 - j) = true ∧ d ((y + r) * 64 + x0 + j) = true := by
  intro n
  induction n with
  | zero => intro row y; simp [spriteHit]
  | succ n ih =>
    intro row y
    simp only [spriteHit, Bool.or_eq_true, Bool.and_eq_true, decide_eq_true_eq,
      rowHit_iff d _ y 8 x0 hx0, ih]
    constructor
    · rintro (⟨j, hj, hj2, hb, hd⟩ | ⟨hlt, r, hr, hr2, j, hj, hj2, hb, hd⟩)
      · exact ⟨0, by omega, Or.inl rfl, j, hj, hj2, hb, hd⟩
      · refine ⟨r + 1, by omega, Or.inr (by omega), j, hj, hj2, ?_, ?_⟩
        · have : I + row + (r + 1) = I + (row + 1) + r := by omega
          rw [this]; exact hb
        · have : y + (r + 1) = y + 1 + r := by omega
          rw [this]; exact hd
    · rintro ⟨r, hr, hr2, j, hj, hj2, hb, hd⟩
      cases r with
      | zero => exact Or.inl ⟨j, hj, hj2, hb, hd⟩
      | succ r =>
        refine Or.inr ⟨by omega, r, by omega, by omega, j, hj, hj2, ?_, ?_⟩
        · have : I + row + (r + 1) = I + (row + 1) + r := by omega
          rw [← this]; exact hb
        · have : y + (r + 1) = y + 1 + r := by omega
          rw [← this]; exact hd

/-- The whole instruction `DXYN` on the 64x32 display, in closed form. -/
theorem draw_eq (config : Config) (rnd : Nat) (s : CHIP8) (X Y N : Nat)
    (h64 : config.window_width = 64) (h32 : config.window_height = 32)
    (hX : X < 16) (hY : Y < 16) (hN : N < 16)
    (hPC : s.PC + 1 < 4096) (h0 : s.ram s.PC = 0xD0 + X) (h1 : s.ram (s.PC + 1) = Y * 16 + N)
    (hI : s.I + N ≤ 4096) :
    ExecuteInstruction config rnd s =
      some { s with
               PC := s.PC + 2
               inst := instOf 13 X Y N
               display := spriteDisplay s.display s.ram s.I (s.V X % 64) N 0 (s.V Y % 32)
               V := if spriteHit s.display s.ram s.I (s.V X % 64) N 0 (s.V Y % 32) then
                      upd s.V 0xF 1
                    else upd s.V 0xF 0 } := by
  rw [exec_DXYN config rnd s X Y N hX hY hN hPC h0 h1]
  simp only [execDraw, instOf, h64, h32, uint8_64, uint8_32]
  rw [if_neg (by omega), drawSprite_eq config h64 h32 (s.V X % 64) (Nat.mod_lt _ (by omega))
    N 0 (s.V Y % 32) _ (Nat.mod_lt _ (by omega)) (by simp only; omega) (by omega)]
  simp only [upd_upd]

/-- C2: for `DXYN` on the 64x32 display with `I + N <= 4096`, every cell `(x, y)` of the
rectangle whose origin is `(V[X] mod 64, V[Y] mod 32)`, clipped at the right and bottom
edges, ends as its old value XOR bit `7 - (x - x0)` of `RAM[I + (y - y0)]`, and every other
cell keeps its value. -/
theorem sprite_blit (config : Config) (rnd : Nat) (s : CHIP8) (X Y N : Nat)
    (h64 : config.window_width = 64) (h32 : config.window_height = 32)
    (hX : X < 16) (hY : Y < 16) (hN : N < 16)
    (hPC : s.PC + 1 < 4096) (h0 : s.ram s.PC = 0xD0 + X) (h1 : s.ram (s.PC + 1) = Y * 16 + N)
    (hI : s.I + N ≤ 4096) :
    ∃ s', ExecuteInstruction config rnd s = some s' ∧
      ∀ x y, x < 64 → y < 32 →
        s'.display (y * 64 + x) =
          if s.V X % 64 ≤ x ∧ x < min (s.V X % 64 + 8) 64 ∧
              s.V Y % 32 ≤ y ∧ y < min (s.V Y % 32 + N) 32 then
            xor (s.display (y * 64 + x))
              ((s.ram (s.I + (y - s.V Y % 32))).testBit (7 - (x - s.V X % 64)))
          else s.display (y * 64 + x) := by
  refine ⟨_, draw_eq config rnd s X Y N h64 h32 hX hY hN hPC h0 h1 hI, ?_⟩
  intro x y hx hy
  have e1 : (y * 64 + x) / 64 = y := by omega
  have e2 : (y * 64 + x) % 64 = x := by omega
  simp only [spriteDisplay, e1, e2, Nat.add_zero]
  by_cases hr : s.V X % 64 ≤ x ∧ x < min (s.V X % 64 + 8) 64 ∧
      s.V Y % 32 ≤ y ∧ y < min (s.V Y % 32 + N) 32
  · rw [if_pos hr, if_pos (by omega)]
  · rw [if_neg hr, if_neg (by omega)]

/-- Scenario 6 of the specification, obtained from `sprite_blit`: on a cleared display,
`D011` with `V[0] = 62`, `V[1] = 0` and sprite byte `0xFF` lights exactly the cells
(62, 0) and (63, 0). -/
theorem sprite_blit_witness :
    clipMachine.V 0 = 62 ∧ clipMachine.V 1 = 0 ∧ clipMachine.ram clipMachine.I = 0xFF ∧
    (∀ i, clipMachine.display i = false) ∧
    ∃ s', ExecuteInstruction (defaultConfig Extension.CHIP_8) 0 clipMachine = some s' ∧
      ∀ x y, x < 64 → y < 32 →
        s'.display (y * 64 + x) = decide ((x = 62 ∨ x = 63) ∧ y = 0) := by
  obtain ⟨s', hs, hd⟩ :=
    sprite_blit (defaultConfig Extension.CHIP_8) 0 clipMachine 0 1 1 rfl rfl
      (by decide) (by decide) (by decide) (by decide) (by decide) (by decide) (by decide)
  refine ⟨by decide, by decide, by decide, fun _ => rfl, s', hs, ?_⟩
  intro x y hx hy
  rw [hd x y hx hy]
  have v0 : clipMachine.V 0 % 64 = 62 := by decide
  have v1 : clipMachine.V 1 % 32 = 0 := by decide
  have hdisp : ∀ i, clipMachine.display i = false := fun _ => rfl
  rw [v0, v1, hdisp]
  by_cases h : (x = 62 ∨ x = 63) ∧ y = 0
  · rw [if_pos (by omega), decide_eq_true h]
    rcases h with ⟨rfl | rfl, rfl⟩ <;> decide
  · rw [if_neg (by omega), decide_eq_false h]

/-- C3: for `DXYN` on the 64x32 display with `I + N <= 4096`, whatever `V[0xF]` held before,
`V[0xF]` ends as 1 exactly when some cell of the clipped sprite rectangle was lit before the
instruction and has its sprite bit set; otherwise it ends as 0, in particular when `N = 0`. -/
theorem sprite_collision (config : Config) (rnd : Nat) (s : CHIP8) (X Y N : Nat)
    (h64 : config.window_width = 64) (h32 : config.window_height = 32)
    (hX : X < 16) (hY : Y < 16) (hN : N < 16)
    (hPC : s.PC + 1 < 4096) (h0 : s.ram s.PC = 0xD0 + X) (h1 : s.ram (s.PC + 1) = Y * 16 + N)
    (hI : s.I + N ≤ 4096) :
    ∃ s', ExecuteInstruction config rnd s = some s' ∧
      (s'.V 0xF = 1 ↔
        ∃ x y, s.V X % 64 ≤ x ∧ x < min (s.V X % 64 + 8) 64 ∧
          s.V Y % 32 ≤ y ∧ y < min (s.V Y % 32 + N) 32 ∧
          (s.ram (s.I + (y - s.V Y % 32))).testBit (7 - (x - s.V X % 64)) = true ∧
          s.display (y * 64 + x) = true) ∧
      (s'.V 0xF = 1 ∨ s'.V 0xF = 0) ∧
      (N = 0 → s'.V 0xF = 0) := by
  refine ⟨_, draw_eq config rnd s X Y N h64 h32 hX hY hN hPC h0 h1 hI, ?_⟩
  have hx0 : s.V X % 64 < 64 := Nat.mod_lt _ (by omega)
  have hy0 : s.V Y % 32 < 32 := Nat.mod_lt _ (by omega)
  have hiff := spriteHit_iff s.display s.ram s.I (s.V X % 64) hx0 N 0 (s.V Y % 32)
  simp only
  by_cases hit : spriteHit s.display s.ram s.I (s.V X % 64) N 0 (s.V Y % 32) = true
  · rw [if_pos hit, upd_same]
    refine ⟨⟨fun _ => ?_, fun _ => rfl⟩, Or.inl rfl, fun hN0 => ?_⟩
    · obtain ⟨r, hr, hr2, j, hj, hj2, hb, hd⟩ := hiff.mp hit
      refine ⟨s.V X % 64 + j, s.V Y % 32 + r, by omega, by omega, by omega, by omega, ?_, ?_⟩
      · have e1 : s.I + (s.V Y % 32 + r - s.V Y % 32) = s.I + 0 + r := by omega
        have e2 : 7 - (s.V X % 64 + j - s.V X % 64) = 7 - j := by omega
        rw [e1, e2]; exact hb
      · have e : (s.V Y % 32 + r) * 64 + (s.V X % 64 + j) = (s.V Y % 32 + r) * 64 + s.V X % 64 + j := by
          omega
        rw [e]; exact hd
    · subst hN0
      simp [spriteHit] at hit
  · rw [if_neg hit, upd_same]
    refine ⟨⟨fun h => absurd h (by decide), fun h => ?_⟩, Or.inr rfl, fun _ => rfl⟩
    exfalso
    apply hit
    obtain ⟨x, y, hx1, hx2, hy1, hy2, hb, hd⟩ := h
    refine hiff.mpr ⟨y - s.V Y % 32, by omega, by omega, x - s.V X % 64, by omega, by omega, ?_, ?_⟩
    · have e1 : s.I + 0 + (y - s.V Y % 32) = s.I + (y - s.V Y % 32) := by omega
      rw [e1]; exact hb
    · have e : (s.V Y % 32 + (y - s.V Y % 32)) * 64 + s.V X % 64 + (x - s.V X % 64) = y * 64 + x := by
        omega
      rw [e]; exact hd

/-- Scenario 6 of the specification, obtained from `sprite_collision`: drawing on the
cleared display leaves `V[0xF] = 0`, drawing over the lit cell (62, 0) leaves `V[0xF] = 1`. -/
theorem sprite_collision_witness :
    (∃ s', ExecuteInstruction (defaultConfig Extension.CHIP_8) 0 clipMachine = some s' ∧
      s'.V 0xF = 0) ∧
    (collideMachine.display (0 * 64 + 62) = true ∧
      ∃ s', ExecuteInstruction (defaultConfig Extension.CHIP_8) 0 collideMachine = some s' ∧
        s'.V 0xF = 1) := by
  obtain ⟨s', hs, hiff, hor, -⟩ :=
    sprite_collision (defaultConfig Extension.CHIP_8) 0 clipMachine 0 1 1 rfl rfl
      (by decide) (by decide) (by decide) (by decide) (by decide) (by decide) (by decide)
  obtain ⟨t', ht, tiff, -, -⟩ :=
    sprite_collision (defaultConfig Extension.CHIP_8) 0 collideMachine 0 1 1 rfl rfl
      (by decide) (by decide) (by decide) (by decide) (by decide) (by decide) (by decide)
  refine ⟨⟨s', hs, ?_⟩, by decide, t', ht, tiff.mpr ⟨62, 0, ?_⟩⟩
  · rcases hor with h1 | h0
    · obtain ⟨x, y, -, -, -, -, -, hd⟩ := hiff.mp h1
      exact absurd hd (by simp [clipMachine, machine, blank])
    · exact h0
  · decide

/-! ## The key wait `FX0A` -/

/-- A key reported by the scan is a key that is held. -/
theorem scanKeys_found (keypad : Nat → Bool) :
    ∀ n i, i + n ≤ 256 → (scanKeys keypad n i).2 = true →
      keypad (scanKeys keypad n i).1 = true ∧ (scanKeys keypad n i).1 < i + n := by
  intro n
  induction n with
  | zero => intro i _ h; simp [scanKeys] at h
  | succ n ih =>
    intro i hi h
    unfold scanKeys at h ⊢
    by_cases hk : keypad i = true
    · rw [if_pos hk] at h ⊢
      have : i % 256 = i := by omega
      simp only [this]
      exact ⟨hk, by omega⟩
    · rw [if_neg hk] at h ⊢
      have := ih (i + 1) (by omega) h
      exact ⟨this.1, by omega⟩

/-- Whatever the keypad holds, `FX0A` undoes the pre-increment and writes no
register: the branch that stores the key is never taken. -/
theorem key_wait_repeats (config : Config) (rnd : Nat) (s : CHIP8) (X : Nat) (hX : X < 16)
    (hPC : s.PC + 1 < 4096) (h0 : s.ram s.PC = 0xF0 + X) (h1 : s.ram (s.PC + 1) = 0x0A) :
    ∃ s', ExecuteInstruction config rnd s = some s' ∧ s'.PC = s.PC ∧ s'.V = s.V := by
  have hex : ExecuteInstruction config rnd s = _ :=
    exec_FXNN config rnd s X 0 10 hX (by omega) (by omega) hPC h0 (by omega)
  have e : (s.PC + 2 + 65536 - 2) % 65536 = s.PC := by omega
  simp only [execMisc, instOf, e] at hex
  rcases hscan : scanKeys s.keypad 16 0 with ⟨key, any⟩
  rw [hscan] at hex
  cases any with
  | false => exact ⟨_, hex, rfl, rfl⟩
  | true =>
    have hf := scanKeys_found s.keypad 16 0 (by omega) (by rw [hscan])
    rw [hscan] at hf
    simp only [Bool.not_true, Bool.false_eq_true, if_false, if_pos (show key < 16 by omega),
      if_pos hf.1] at hex
    exact ⟨_, hex, rfl, rfl⟩

/-- C4: the code evaluated on `F00A` at `0x200`.  On two successive cycles with key 5 held
the instruction is repeated (`PC = 0x200`); executed again after the key has been released
it is repeated once more: `PC` is still `0x200`, not `0x202`, and `V[0]` is still 0, not 5. -/
theorem key_wait_never_completes :
    ∃ s1, ExecuteInstruction (defaultConfig Extension.CHIP_8) 0 keyHeldMachine = some s1 ∧
      s1.PC = 0x200 ∧ s1.keypad 5 = true ∧
      ∃ s2, ExecuteInstruction (defaultConfig Extension.CHIP_8) 0 s1 = some s2 ∧
        s2.PC = 0x200 ∧
        ∃ s3, ExecuteInstruction (defaultConfig Extension.CHIP_8) 0
            { s2 with keypad := fun _ => false } = some s3 ∧
          s3.PC = 0x200 ∧ s3.V 0 = 0 := by
  refine ⟨_, rfl, by decide, by decide, _, rfl, by decide, _, rfl, by decide, by decide⟩

/-! ## The register dump `FX55` -/

/-- The loop of `FX55` under the CHIP-8 quirk, in closed form. -/
theorem regDump_chip8 (config : Config) (hc : config.currentExtension = Extension.CHIP_8) :
    ∀ n i (s : CHIP8), s.I + n ≤ 4096 →
      regDump config n i s =
        some { s with
                 ram := fun a => if s.I ≤ a ∧ a < s.I + n then s.V (i + (a - s.I)) else s.ram a
                 I := s.I + n } := by
  intro n
  induction n with
  | zero =>
    intro i s _
    simp only [regDump, Option.some.injEq]
    cases s
    simp only [CHIP8.mk.injEq, true_and, and_true, Nat.add_zero]
    funext a
    rw [if_neg (by omega)]
  | succ n ih =>
    intro i s h
    have e : (s.I + 1) % 65536 = s.I + 1 := by omega
    simp only [regDump, hc, if_true, if_pos (show s.I < 4096 by omega), e]
    rw [ih (i + 1) _ (by simp only; omega)]
    simp only [Option.some.injEq, CHIP8.mk.injEq, true_and, and_true]
    refine ⟨?_, by omega⟩
    funext a
    by_cases ha : a = s.I
    · subst ha
      rw [if_neg (by omega), upd_same, if_pos (by omega)]
      simp
    · rw [upd_other _ _ _ _ ha]
      by_cases hr : s.I + 1 ≤ a ∧ a < s.I + 1 + n
      · rw [if_pos hr, if_pos (by omega)]
        congr 1
        omega
      · rw [if_neg hr, if_neg (by omega)]

/-- The loop of `FX55` under the other quirks, in closed form. -/
theorem regDump_other (config : Config) (hc : config.currentExtension ≠ Extension.CHIP_8) :
    ∀ n i (s : CHIP8), s.I + i + n ≤ 4096 →
      regDump config n i s =
        some { s with
                 ram := fun a =>
                   if s.I + i ≤ a ∧ a < s.I + i + n then s.V (a - s.I) else s.ram a } := by
  intro n
  induction n with
  | zero =>
    intro i s _
    simp only [regDump, Option.some.injEq]
    cases s
    simp only [CHIP8.mk.injEq, true_and, and_true, Nat.add_zero]
    funext a
    rw [if_neg (by omega)]
  | succ n ih =>
    intro i s h
    have e : (s.I + i) % 65536 = s.I + i := by omega
    simp only [regDump, hc, if_false, if_pos (show s.I + i < 4096 by omega), e]
    rw [ih (i + 1) _ (by simp only; omega)]
    simp only [Option.some.injEq, CHIP8.mk.injEq, true_and, and_true]
    funext a
    by_cases ha : a = s.I + i
    · subst ha
      rw [if_neg (by omega), upd_same, if_pos (by omega)]
      simp
    · rw [upd_other _ _ _ _ ha]
      by_cases hr : s.I + (i + 1) ≤ a ∧ a < s.I + (i + 1) + n
      · rw [if_pos hr, if_pos (by omega)]
      · rw [if_neg hr, if_neg (by omega)]

/-- C8: for `FX55` with `I + X < 4096`, afterwards `RAM[I0 + i] = V[i]` for `i = 0..X`, the
RAM outside `I0..I0+X` and all registers are unchanged, and `I` is `I0 + X + 1` under the
CHIP-8 quirk and `I0` under any other quirk. -/
theorem reg_dump (config : Config) (rnd : Nat) (s : CHIP8) (X : Nat) (hX : X < 16)
    (hPC : s.PC + 1 < 4096) (h0 : s.ram s.PC = 0xF0 + X) (h1 : s.ram (s.PC + 1) = 0x55)
    (hI : s.I + X < 4096) :
    ∃ s', ExecuteInstruction config rnd s = some s' ∧
      (∀ i, i ≤ X → s'.ram (s.I + i) = s.V i) ∧
      (∀ a, (a < s.I ∨ s.I + X < a) → s'.ram a = s.ram a) ∧
      s'.V = s.V ∧
      (config.currentExtension = Extension.CHIP_8 → s'.I = s.I + X + 1) ∧
      (config.currentExtension ≠ Extension.CHIP_8 → s'.I = s.I) := by
  have hex : ExecuteInstruction config rnd s = _ :=
    exec_FXNN config rnd s X 5 5 hX (by omega) (by omega) hPC h0 (by omega)
  simp only [execMisc, instOf] at hex
  by_cases hc : config.currentExtension = Extension.CHIP_8
  · rw [regDump_chip8 config hc (X + 1) 0 _ (by simp only; omega)] at hex
    refine ⟨_, hex, fun i hi => ?_, fun a ha => ?_, rfl, fun _ => rfl, fun h => absurd hc h⟩
    · simp only
      rw [if_pos (by omega)]
      congr 1
      omega
    · simp only
      rw [if_neg (by omega)]
  · rw [regDump_other config hc (X + 1) 0 _ (by simp only; omega)] at hex
    refine ⟨_, hex, fun i hi => ?_, fun a ha => ?_, rfl, fun h => absurd h hc, fun _ => rfl⟩
    · simp only
      rw [if_pos (by omega)]
      congr 1
      omega
    · simp only
      rw [if_neg (by omega)]

/-- Scenario 8 of the specification, obtained from `reg_dump`, under both quirks. -/
theorem reg_dump_witness :
    (dumpMachine.V 0 = 1 ∧ dumpMachine.V 1 = 2 ∧ dumpMachine.V 2 = 3 ∧ dumpMachine.V 3 = 4 ∧
      dumpMachine.I = 0x400) ∧
    (∃ s', ExecuteInstruction (defaultConfig Extension.CHIP_8) 0 dumpMachine = some s' ∧
      s'.ram 0x400 = 1 ∧ s'.ram 0x401 = 2 ∧ s'.ram 0x402 = 3 ∧ s'.ram 0x403 = 4 ∧
      s'.I = 0x404) ∧
    (∃ s', ExecuteInstruction (defaultConfig Extension.SUPERCHIP) 0 dumpMachine = some s' ∧
      s'.ram 0x400 = 1 ∧ s'.ram 0x401 = 2 ∧ s'.ram 0x402 = 3 ∧ s'.ram 0x403 = 4 ∧
      s'.I = 0x400) := by
  obtain ⟨s', hs, hram, -, -, hc, -⟩ :=
    reg_dump (defaultConfig Extension.CHIP_8) 0 dumpMachine 3
      (by decide) (by decide) (by decide) (by decide) (by decide)
  obtain ⟨t', ht, tram, -, -, -, tn⟩ :=
    reg_dump (defaultConfig Extension.SUPERCHIP) 0 dumpMachine 3
      (by decide) (by decide) (by decide) (by decide) (by decide)
  exact ⟨⟨by decide, by decide, by decide, by decide, by decide⟩,
    ⟨s', hs, hram 0 (by decide), hram 1 (by decide), hram 2 (by decide), hram 3 (by decide),
      hc rfl⟩,
    ⟨t', ht, tram 0 (by decide), tram 1 (by decide), tram 2 (by decide), tram 3 (by decide),
      tn (by decide)⟩⟩

/-! ## The decimal conversion `FX33` and the font pointer `FX29` -/

/-- C9: for `FX33` with `I + 2 < 4096` and a byte `b = V[X]`, afterwards `RAM[I]`,
`RAM[I+1]`, `RAM[I+2]` are `b / 100`, `(b / 10) mod 10`, `b mod 10`: three decimal digits
whose value is `b`; the rest of the RAM, the registers and `I` are unchanged. -/
theorem bcd_store (config : Config) (rnd : Nat) (s : CHIP8) (X : Nat)
    (wt : s.WellTyped) (hX : X < 16)
    (hPC : s.PC + 1 < 4096) (h0 : s.ram s.PC = 0xF0 + X) (h1 : s.ram (s.PC + 1) = 0x33)
    (hI : s.I + 2 < 4096) :
    ∃ s', ExecuteInstruction config rnd s = some s' ∧
      s'.ram s.I = s.V X / 100 ∧
      s'.ram (s.I + 1) = (s.V X / 10) % 10 ∧
      s'.ram (s.I + 2) = s.V X % 10 ∧
      s'.ram s.I < 10 ∧ s'.ram (s.I + 1) < 10 ∧ s'.ram (s.I + 2) < 10 ∧
      100 * s'.ram s.I + 10 * s'.ram (s.I + 1) + s'.ram (s.I + 2) = s.V X ∧
      (∀ a, a ≠ s.I → a ≠ s.I + 1 → a ≠ s.I + 2 → s'.ram a = s.ram a) ∧
      s'.V = s.V ∧ s'.I = s.I := by
  have hb := wt.V_lt X
  have e2 : (s.I + 2) % 65536 = s.I + 2 := by omega
  have e1 : (s.I + 1) % 65536 = s.I + 1 := by omega
  have hex : ExecuteInstruction config rnd s = _ :=
    exec_FXNN config rnd s X 3 3 hX (by omega) (by omega) hPC h0 (by omega)
  simp only [execMisc, instOf, e1, e2, if_pos hI, if_pos (show s.I + 1 < 4096 by omega),
    if_pos (show s.I < 4096 by omega)] at hex
  refine ⟨_, hex, ?_⟩
  have r0 : ∀ v w u, upd (upd (upd s.ram (s.I + 2) v) (s.I + 1) w) s.I u s.I = u :=
    fun v w u => upd_same _ _ _
  have r1 : ∀ v w u, upd (upd (upd s.ram (s.I + 2) v) (s.I + 1) w) s.I u (s.I + 1) = w :=
    fun v w u => by rw [upd_other _ _ _ _ (by omega), upd_same]
  have r2 : ∀ v w u, upd (upd (upd s.ram (s.I + 2) v) (s.I + 1) w) s.I u (s.I + 2) = v :=
    fun v w u => by rw [upd_other _ _ _ _ (by omega), upd_other _ _ _ _ (by omega), upd_same]
  simp only [r0, r1, r2]
  refine ⟨by omega, trivial, trivial, by omega, by omega, by omega, by omega, ?_, trivial, trivial⟩
  intro a ha0 ha1 ha2
  rw [upd_other _ _ _ _ ha0, upd_other _ _ _ _ ha1, upd_other _ _ _ _ ha2]

theorem bcdMachine_wellTyped : bcdMachine.WellTyped :=
  machine_wellTyped _ _ _ _ _ (by decide) (by decide)
    (upd_lt _ _ _ _ (fun _ => by decide) (by decide)) (by decide)

/-- Scenario 7 of the specification, obtained from `bcd_store`: `F233` with `V[2] = 234`
and `I = 0x300` stores 2, 3, 4 at `0x300..0x302`. -/
theorem bcd_store_witness :
    bcdMachine.V 2 = 234 ∧ bcdMachine.I = 0x300 ∧
      ∃ s', ExecuteInstruction (defaultConfig Extension.CHIP_8) 0 bcdMachine = some s' ∧
        s'.ram 0x300 = 2 ∧ s'.ram 0x301 = 3 ∧ s'.ram 0x302 = 4 := by
  obtain ⟨s', hs, h0, h1, h2, -⟩ :=
    bcd_store (defaultConfig Extension.CHIP_8) 0 bcdMachine 2 bcdMachine_wellTyped
      (by decide) (by decide) (by decide) (by decide) (by decide)
  exact ⟨by decide, by decide, s', hs, h0, h1, h2⟩

/-- What `FX29` does: the product is reduced modulo 256. -/
theorem font_pointer_eq (config : Config) (rnd : Nat) (s : CHIP8) (X : Nat) (hX : X < 16)
    (hPC : s.PC + 1 < 4096) (h0 : s.ram s.PC = 0xF0 + X) (h1 : s.ram (s.PC + 1) = 0x29) :
    ∃ s', ExecuteInstruction config rnd s = some s' ∧ s'.I = (5 * s.V X) % 256 := by
  have hex : ExecuteInstruction config rnd s = _ :=
    exec_FXNN config rnd s X 2 9 hX (by omega) (by omega) hPC h0 (by omega)
  simp only [execMisc, instOf] at hex
  exact ⟨_, hex, by simp only [Nat.mul_comm]⟩

/-- C10: the code evaluated on `F029` with `V[0] = 52`.  The product `5 * 52 = 260` is
formed in eight bits, so `I` ends as 4. -/
theorem font_pointer_wraps :
    fontMachine.V 0 = 52 ∧
    (ExecuteInstruction (defaultConfig Extension.CHIP_8) 0 fontMachine).map (fun s' => s'.I)
      = some 4 := by
  decide

/-! ## The key skips `EX9E` and `EXA1` -/

/-- An opcode `EXNN` is executed by `execKey`. -/
theorem exec_EXNN (config : Config) (rnd : Nat) (s : CHIP8)
    (X Y N : Nat) (hX : X < 16) (hY : Y < 16) (hN : N < 16)
    (hPC : s.PC + 1 < 4096) (h0 : s.ram s.PC = 0xE0 + X) (h1 : s.ram (s.PC + 1) = Y * 16 + N) :
    ExecuteInstruction config rnd s =
      execKey (instOf 14 X Y N) { s with PC := s.PC + 2, inst := instOf 14 X Y N } := by
  rw [ExecuteInstruction_eq config rnd s 14 X Y N (by omega) hX hY hN hPC (by omega) h1]
  unfold dispatch
  rw [instOf_high 14 X Y N (by omega) hX hY hN]

/-- Both `EX9E` and `EXA1` index `keypad` with the whole byte `V[X]`: from 16 on the
instruction faults. -/
theorem key_skip_faults (config : Config) (rnd : Nat) (s : CHIP8) (X N : Nat)
    (hX : X < 16) (hN : N = 0x9E ∨ N = 0xA1)
    (hPC : s.PC + 1 < 4096) (h0 : s.ram s.PC = 0xE0 + X) (h1 : s.ram (s.PC + 1) = N)
    (hV : 16 ≤ s.V X) :
    ExecuteInstruction config rnd s = none := by
  rcases hN with rfl | rfl
  · rw [exec_EXNN config rnd s X 9 14 hX (by omega) (by omega) hPC h0 (by omega)]
    simp only [execKey, instOf]
    rw [if_neg (by omega)]
  · rw [exec_EXNN config rnd s X 10 1 hX (by omega) (by omega) hPC h0 (by omega)]
    simp only [execKey, instOf]
    rw [if_neg (by omega)]

/-- For `V[X] <= 15` the two key skips do what the instruction set says. -/
theorem key_skip_in_range (config : Config) (rnd : Nat) (s : CHIP8) (X : Nat)
    (hX : X < 16) (hPC : s.PC + 1 < 4096) (h0 : s.ram s.PC = 0xE0 + X) (hV : s.V X < 16) :
    (s.ram (s.PC + 1) = 0x9E →
      ∃ s', ExecuteInstruction config rnd s = some s' ∧
        s'.PC = if s.keypad (s.V X) then s.PC + 4 else s.PC + 2) ∧
    (s.ram (s.PC + 1) = 0xA1 →
      ∃ s', ExecuteInstruction config rnd s = some s' ∧
        s'.PC = if s.keypad (s.V X) then s.PC + 2 else s.PC + 4) := by
  have e : (s.PC + 2 + 2) % 65536 = s.PC + 4 := by omega
  constructor
  · intro h1
    rw [exec_EXNN config rnd s X 9 14 hX (by omega) (by omega) hPC h0 (by omega)]
    simp only [execKey, instOf, if_pos hV, e]
    by_cases hk : s.keypad (s.V X) = true
    · simp only [hk, if_true]; exact ⟨_, rfl, rfl⟩
    · rw [Bool.not_eq_true] at hk
      simp only [hk, Bool.false_eq_true, if_false]; exact ⟨_, rfl, rfl⟩
  · intro h1
    rw [exec_EXNN config rnd s X 10 1 hX (by omega) (by omega) hPC h0 (by omega)]
    simp only [execKey, instOf, if_pos hV, e]
    by_cases hk : s.keypad (s.V X) = true
    · simp only [hk, Bool.not_true, Bool.false_eq_true, if_false, if_true]; exact ⟨_, rfl, rfl⟩
    · rw [Bool.not_eq_true] at hk
      simp only [hk, Bool.not_false, Bool.false_eq_true, if_false, if_true]; exact ⟨_, rfl, rfl⟩

/-- C11: the code evaluated on `E09E` with `V[0] = 0x10`.  The low nibble of `V[0]` is 0,
yet the instruction does not complete: `keypad[16]` is outside the array. -/
theorem key_skip_index_out_of_range :
    keyIndexMachine.V 0 = 0x10 ∧
    ExecuteInstruction (defaultConfig Extension.CHIP_8) 0 keyIndexMachine = none := by
  exact ⟨by decide, rfl⟩

/-! ## Call and return: `2NNN` and `00EE` -/

/-- An opcode `2NNN` with room on the stack pushes the address of the next instruction. -/
theorem exec_2NNN (config : Config) (rnd : Nat) (s : CHIP8)
    (X Y N : Nat) (hX : X < 16) (hY : Y < 16) (hN : N < 16) (hSP : s.stackPointer < 12)
    (hPC : s.PC + 1 < 4096) (h0 : s.ram s.PC = 0x20 + X) (h1 : s.ram (s.PC + 1) = Y * 16 + N) :
    ExecuteInstruction config rnd s =
      some { s with
               inst := instOf 2 X Y N
               stack := upd s.stack s.stackPointer (s.PC + 2)
               stackPointer := s.stackPointer + 1
               PC := X * 256 + Y * 16 + N } := by
  rw [ExecuteInstruction_eq config rnd s 2 X Y N (by omega) hX hY hN hPC (by omega) h1]
  unfold dispatch
  rw [instOf_high 2 X Y N (by omega) hX hY hN]
  have e : (s.stackPointer + 1) % 256 = s.stackPointer + 1 := by omega
  simp only [if_pos hSP, e, instOf]

/-- The opcode `00EE` with a non-empty stack pops the return address. -/
theorem exec_00EE (config : Config) (rnd : Nat) (s : CHIP8)
    (hSP : 1 ≤ s.stackPointer ∧ s.stackPointer ≤ 12)
    (hPC : s.PC + 1 < 4096) (h0 : s.ram s.PC = 0x00) (h1 : s.ram (s.PC + 1) = 0xEE) :
    ExecuteInstruction config rnd s =
      some { s with
               inst := instOf 0 0 14 14
               stackPointer := s.stackPointer - 1
               PC := s.stack (s.stackPointer - 1) } := by
  rw [ExecuteInstruction_eq config rnd s 0 0 14 14 (by omega) (by omega) (by omega) (by omega)
    hPC (by omega) (by omega)]
  unfold dispatch
  rw [instOf_high 0 0 14 14 (by omega) (by omega) (by omega) (by omega)]
  have e : (s.stackPointer + 256 - 1) % 256 = s.stackPointer - 1 := by omega
  simp only [instOf, e, if_pos (show s.stackPointer - 1 < 12 by omega)]

/-- C12: with `SP < 12`, a `2NNN` at address `A` stores `A + 2` in `stack[SP]`, adds 1 to
`SP` and jumps to `NNN`; a `00EE` found at `NNN` and executed next brings `SP` back to its
old value and `PC` to `A + 2`. -/
theorem call_return (config : Config) (rnd1 rnd2 : Nat) (s : CHIP8) (X Y N : Nat)
    (hX : X < 16) (hY : Y < 16) (hN : N < 16) (hSP : s.stackPointer < 12)
    (hPC : s.PC + 1 < 4096) (h0 : s.ram s.PC = 0x20 + X) (h1 : s.ram (s.PC + 1) = Y * 16 + N)
    (hNNN : X * 256 + Y * 16 + N + 1 < 4096)
    (r0 : s.ram (X * 256 + Y * 16 + N) = 0x00) (r1 : s.ram (X * 256 + Y * 16 + N + 1) = 0xEE) :
    ∃ s1, ExecuteInstruction config rnd1 s = some s1 ∧
      s1.stack s.stackPointer = s.PC + 2 ∧
      s1.stackPointer = s.stackPointer + 1 ∧
      s1.PC = X * 256 + Y * 16 + N ∧
      ∃ s2, ExecuteInstruction config rnd2 s1 = some s2 ∧
        s2.stackPointer = s.stackPointer ∧ s2.PC = s.PC + 2 := by
  refine ⟨_, exec_2NNN config rnd1 s X Y N hX hY hN hSP hPC h0 h1, upd_same _ _ _, rfl, rfl, ?_⟩
  refine ⟨_, exec_00EE config rnd2 _ ⟨by simp only; omega, by simp only; omega⟩ hNNN r0 r1,
    ?_, ?_⟩
  · simp only [Nat.add_sub_cancel]
  · simp only [Nat.add_sub_cancel, upd_same]

/-- Scenario 2 of the specification, obtained from `call_return`: after the first cycle
`PC = 0x206`, `SP = 1`, `stack[0] = 0x202`; after the second `PC = 0x202`, `SP = 0`. -/
theorem call_return_witness :
    callMachine.ram 0x200 = 0x22 ∧ callMachine.ram 0x201 = 0x06 ∧
    callMachine.ram 0x206 = 0x00 ∧ callMachine.ram 0x207 = 0xEE ∧
    callMachine.PC = 0x200 ∧ callMachine.stackPointer = 0 ∧
    ∃ s1, ExecuteInstruction (defaultConfig Extension.CHIP_8) 0 callMachine = some s1 ∧
      s1.PC = 0x206 ∧ s1.stackPointer = 1 ∧ s1.stack 0 = 0x202 ∧
      ∃ s2, ExecuteInstruction (defaultConfig Extension.CHIP_8) 0 s1 = some s2 ∧
        s2.PC = 0x202 ∧ s2.stackPointer = 0 := by
  obtain ⟨s1, h1, hst, hsp, hpc, s2, h2, hsp2, hpc2⟩ :=
    call_return (defaultConfig Extension.CHIP_8) 0 0 callMachine 2 0 6
      (by decide) (by decide) (by decide) (by decide) (by decide) (by decide) (by decide)
      (by decide) (by decide) (by decide)
  exact ⟨by decide, by decide, by decide, by decide, by decide, by decide,
    s1, h1, hpc, hsp, hst, s2, h2, hpc2, hsp2⟩

/-! ## The stack pointer -/

/-- The pixel toggle leaves the stack pointer alone. -/
theorem SetPixel_stackPointer (config : Config) (s s' : CHIP8) (x y : Nat) (b c : Bool)
    (h : SetPixel config s x y b = some (s', c)) : s'.stackPointer = s.stackPointer := by
  unfold SetPixel at h
  simp only at h
  split at h
  · exact absurd h (by simp)
  · split at h
    · simp only [Option.some.injEq, Prod.mk.injEq] at h
      rw [← h.1]
    · exact absurd h (by simp)

/-- The inner loop of `DXYN` leaves the stack pointer alone, whatever the configuration. -/
theorem drawRow_stackPointer (config : Config) (data y : Nat) :
    ∀ n x (s s' : CHIP8), drawRow config data y n x s = some s' →
      s'.stackPointer = s.stackPointer := by
  intro n
  induction n with
  | zero =>
    intro x s s' h
    simp only [drawRow, Option.some.injEq] at h
    rw [← h]
  | succ n ih =>
    intro x s s' h
    unfold drawRow at h
    simp only at h
    split at h
    · exact absurd h (by simp)
    · rename_i c1 collision hset
      have h1 := SetPixel_stackPointer config s c1 x y _ collision hset
      have h2 : (if collision = true then { c1 with V := upd c1.V 0xF 1 } else c1).stackPointer
          = s.stackPointer := by
        split <;> exact h1
      split at h
      · simp only [Option.some.injEq] at h
        rw [← h]; exact h2
      · rw [ih _ _ _ h]; exact h2

/-- The outer loop of `DXYN` leaves the stack pointer alone. -/
theorem drawSprite_stackPointer (config : Config) (origX : Nat) :
    ∀ n row y (s s' : CHIP8), drawSprite config origX n row y s = some s' →
      s'.stackPointer = s.stackPointer := by
  intro n
  induction n with
  | zero =>
    intro row y s s' h
    simp only [drawSprite, Option.some.injEq] at h
    rw [← h]
  | succ n ih =>
    intro row y s s' h
    unfold drawSprite at h
    simp only at h
    split at h
    · split at h
      · exact absurd h (by simp)
      · rename_i c1 hrow
        have h1 := drawRow_stackPointer config _ _ _ _ _ _ hrow
        split at h
        · simp only [Option.some.injEq] at h
          rw [← h]; exact h1
        · rw [ih _ _ _ _ h]; exact h1
    · exact absurd h (by simp)

/-- The loop of `FX55` leaves the stack pointer alone. -/
theorem regDump_stackPointer (config : Config) :
    ∀ n i (s s' : CHIP8), regDump config n i s = some s' → s'.stackPointer = s.stackPointer := by
  intro n
  induction n with
  | zero =>
    intro i s s' h
    simp only [regDump, Option.some.injEq] at h
    rw [← h]
  | succ n ih =>
    intro i s s' h
    unfold regDump at h
    split at h
    · split at h
      · have := ih _ _ _ h
        exact this
      · exact absurd h (by simp)
    · split at h
      · have := ih _ _ _ h
        exact this
      · exact absurd h (by simp)

/-- The loop of `FX65` leaves the stack pointer alone. -/
theorem regLoad_stackPointer (config : Config) :
    ∀ n i (s s' : CHIP8), regLoad config n i s = some s' → s'.stackPointer = s.stackPointer := by
  intro n
  induction n with
  | zero =>
    intro i s s' h
    simp only [regLoad, Option.some.injEq] at h
    rw [← h]
  | succ n ih =>
    intro i s s' h
    unfold regLoad at h
    split at h
    · split at h
      · have := ih _ _ _ h
        exact this
      · exact absurd h (by simp)
    · split at h
      · have := ih _ _ _ h
        exact this
      · exact absurd h (by simp)

/-- The group `8XYN` leaves the stack pointer alone. -/
theorem execALU_stackPointer (config : Config) (inst : Instruction) (s : CHIP8) :
    (execALU config inst s).stackPointer = s.stackPointer := by
  unfold execALU
  split <;> simp only [] <;> (try split) <;> rfl

/-- The instruction `DXYN` leaves the stack pointer alone. -/
theorem execDraw_stackPointer (config : Config) (inst : Instruction) (s s' : CHIP8)
    (h : execDraw config inst s = some s') : s'.stackPointer = s.stackPointer := by
  unfold execDraw at h
  split at h
  · exact absurd h (by simp)
  · simp only at h
    have := drawSprite_stackPointer config _ _ _ _ _ _ h
    exact this

/-- The group `EXNN` leaves the stack pointer alone. -/
theorem execKey_stackPointer (inst : Instruction) (s s' : CHIP8)
    (h : execKey inst s = some s') : s'.stackPointer = s.stackPointer := by
  unfold execKey at h
  split at h
  · split at h
    · split at h <;> (simp only [Option.some.injEq] at h; rw [← h])
    · exact absurd h (by simp)
  · split at h
    · split at h <;> (simp only [Option.some.injEq] at h; rw [← h])
    · exact absurd h (by simp)
  · simp only [Option.some.injEq] at h; rw [← h]

/-- The group `FXNN` leaves the stack pointer alone. -/
theorem execMisc_stackPointer (config : Config) (inst : Instruction) (s s' : CHIP8)
    (h : execMisc config inst s = some s') : s'.stackPointer = s.stackPointer := by
  unfold execMisc at h
  split at h
  · simp only at h
    split at h
    · simp only [Option.some.injEq] at h; rw [← h]
    · split at h
      · split at h <;> (simp only [Option.some.injEq] at h; rw [← h])
      · exact absurd h (by simp)
  · simp only [Option.some.injEq] at h; rw [← h]
  · simp only [Option.some.injEq] at h; rw [← h]
  · simp only [Option.some.injEq] at h; rw [← h]
  · simp only [Option.some.injEq] at h; rw [← h]
  · simp only [Option.some.injEq] at h; rw [← h]
  · simp only at h
    split at h
    · split at h
      · split at h
        · simp only [Option.some.injEq] at h; rw [← h]
        · exact absurd h (by simp)
      · exact absurd h (by simp)
    · exact absurd h (by simp)
  · have := regDump_stackPointer config _ _ _ _ h
    exact this
  · have := regLoad_stackPointer config _ _ _ _ h
    exact this
  · simp only [Option.some.injEq] at h; rw [← h]

/-- Every branch of the dispatch keeps the stack pointer within `0..12`: `00EE` and `2NNN`
fault instead of leaving the range, all other branches do not write it. -/
theorem dispatch_stackPointer (config : Config) (rnd : Nat) (inst : Instruction) (s s' : CHIP8)
    (h : dispatch config rnd inst s = some s') (hs : s.stackPointer ≤ 12) :
    s'.stackPointer ≤ 12 := by
  unfold dispatch at h
  split at h
  · split at h
    · simp only [Option.some.injEq] at h; rw [← h]; exact hs
    · simp only at h
      split at h
      · rename_i hlt
        simp only [Option.some.injEq] at h; rw [← h]
        exact Nat.le_of_lt (Nat.lt_of_lt_of_le hlt (by decide))
      · exact absurd h (by simp)
    · simp only [Option.some.injEq] at h; rw [← h]; exact hs
  · simp only [Option.some.injEq] at h; rw [← h]; exact hs
  · split at h
    · rename_i hlt
      simp only [Option.some.injEq] at h; rw [← h]
      show (s.stackPointer + 1) % 256 ≤ 12
      omega
    · exact absurd h (by simp)
  · split at h <;> (simp only [Option.some.injEq] at h; rw [← h]; exact hs)
  · split at h <;> (simp only [Option.some.injEq] at h; rw [← h]; exact hs)
  · split at h
    · simp only [Option.some.injEq] at h; rw [← h]; exact hs
    · split at h <;> (simp only [Option.some.injEq] at h; rw [← h]; exact hs)
  · simp only [Option.some.injEq] at h; rw [← h]; exact hs
  · simp only [Option.some.injEq] at h; rw [← h]; exact hs
  · simp only [Option.some.injEq] at h; rw [← h, execALU_stackPointer]; exact hs
  · split at h
    · simp only [Option.some.injEq] at h; rw [← h]; exact hs
    · split at h <;> (simp only [Option.some.injEq] at h; rw [← h]; exact hs)
  · simp only [Option.some.injEq] at h; rw [← h]; exact hs
  · simp only [Option.some.injEq] at h; rw [← h]; exact hs
  · simp only [Option.some.injEq] at h; rw [← h]; exact hs
  · rw [execDraw_stackPointer config inst s s' h]; exact hs
  · rw [execKey_stackPointer inst s s' h]; exact hs
  · rw [execMisc_stackPointer config inst s s' h]; exact hs
  · simp only [Option.some.injEq] at h; rw [← h]; exact hs

/-- One completed instruction keeps the stack pointer within `0..12`. -/
theorem ExecuteInstruction_stackPointer (config : Config) (rnd : Nat) (s s' : CHIP8)
    (h : ExecuteInstruction config rnd s = some s') (hs : s.stackPointer ≤ 12) :
    s'.stackPointer ≤ 12 := by
  unfold ExecuteInstruction at h
  split at h
  · exact dispatch_stackPointer config rnd _ _ s' h hs
  · exact absurd h (by simp)

/-- Any number of completed instructions keeps the stack pointer within `0..12`. -/
theorem runCycles_stackPointer (config : Config) :
    ∀ (rnds : List Nat) (s s' : CHIP8), runCycles config rnds s = some s' →
      s.stackPointer ≤ 12 → s'.stackPointer ≤ 12 := by
  intro rnds
  induction rnds with
  | nil =>
    intro s s' h hs
    simp only [runCycles, Option.some.injEq] at h
    rw [← h]; exact hs
  | cons rnd rest ih =>
    intro s s' h hs
    unfold runCycles at h
    split at h
    · exact absurd h (by simp)
    · rename_i c1 h1
      exact ih c1 s' h (ExecuteInstruction_stackPointer config rnd s c1 h1 hs)

/-- C13: from a state with `SP <= 12`, whatever the opcode, a call of `ExecuteInstruction`
that completes yields a state with `SP <= 12`; hence every state that completed
instructions reach from a state with `SP = 0` has `SP <= 12`. -/
theorem stack_pointer_invariant (config : Config) :
    (∀ (rnd : Nat) (s s' : CHIP8), s.stackPointer ≤ 12 →
      ExecuteInstruction config rnd s = some s' → s'.stackPointer ≤ 12) ∧
    (∀ (rnds : List Nat) (s0 s : CHIP8), s0.stackPointer = 0 →
      runCycles config rnds s0 = some s → s.stackPointer ≤ 12) :=
  ⟨fun rnd s s' hs h => ExecuteInstruction_stackPointer config rnd s s' h hs,
   fun rnds s0 s h0 h => runCycles_stackPointer config rnds s0 s h (by omega)⟩

/-- An instance of `stack_pointer_invariant`: the two cycles of scenario 2 complete, and
the stack pointer of the state they reach is within bounds. -/
theorem stack_pointer_invariant_witness :
    callMachine.stackPointer = 0 ∧
    (∃ s1, ExecuteInstruction (defaultConfig Extension.CHIP_8) 0 callMachine = some s1 ∧
      s1.stackPointer ≤ 12) ∧
    ∃ s, runCycles (defaultConfig Extension.CHIP_8) [0, 0] callMachine = some s ∧
      s.stackPointer ≤ 12 :=
  ⟨rfl,
    ⟨_, rfl,
      (stack_pointer_invariant (defaultConfig Extension.CHIP_8)).1 0 callMachine _
        (by decide) rfl⟩,
    _, rfl,
    (stack_pointer_invariant (defaultConfig Extension.CHIP_8)).2 [0, 0] callMachine _ rfl rfl⟩

/-! ## Reset and start-up -/

/-- The font has 16 glyphs of 5 bytes. -/
theorem font_length : font.length = 80 := by decide

/-- What `Reset` followed by `Init` yields when the ROM file can be read. -/
theorem Init_Reset_eq (rom : List Nat) (config : Config) (s : CHIP8) :
    Init (some rom) config (Reset s) =
      some { state := EmulatorState.RUNNING
             ram := copyAt (copyAt (fun _ => 0) 4096 0 font) 4096 0x200 rom
             entryPoint := 0x200
             display := fun _ => false
             pixelColor := fun _ => config.bgColor
             stack := fun _ => 0
             stackPointer := 0
             V := fun _ => 0
             I := 0
             PC := 0x200
             delayTimer := 0
             soundTimer := 0
             keypad := fun _ => false
             inst := s.inst
             beeping := false } := by
  simp only [Init, Reset, LoadFont, LoadRom]
  rw [if_pos (by decide)]
  rfl

/-- The instruction record left by an earlier instruction is never read: it does not
influence the next call of `ExecuteInstruction`. -/
theorem ExecuteInstruction_inst (config : Config) (rnd : Nat) (s : CHIP8) (i : Instruction) :
    ExecuteInstruction config rnd { s with inst := i } = ExecuteInstruction config rnd s := rfl

/-- C14: when the ROM file can be read, `Reset` followed by `Init` (the action of the `R`
key) takes every state to the fresh image: the 80 font bytes from 0, the ROM bytes from
`0x200` up to the end of RAM, zero in all other RAM cells, registers, stack and timers,
a dark display, no key held, `PC = 0x200`, state RUNNING.  The results for two prior
states differ at most in the instruction record `inst`, which neither method writes, and a
second reset yields exactly the state the first one yielded. -/
theorem reset_fresh_image (rom : List Nat) (config : Config) (s t : CHIP8) :
    ∃ s', Init (some rom) config (Reset s) = some s' ∧
      OnKeyDown (some rom) config s Scancode.ScancodeR = some (config, s') ∧
      (∀ a, a < 80 → s'.ram a = font.getD a 0) ∧
      (∀ a, 0x200 ≤ a → a < 4096 → a < 0x200 + rom.length →
        s'.ram a = rom.getD (a - 0x200) 0) ∧
      (∀ a, a < 4096 → 80 ≤ a → (a < 0x200 ∨ 0x200 + rom.length ≤ a) → s'.ram a = 0) ∧
      (∀ i, s'.V i = 0) ∧ s'.I = 0 ∧ s'.stackPointer = 0 ∧ (∀ i, s'.stack i = 0) ∧
      s'.delayTimer = 0 ∧ s'.soundTimer = 0 ∧
      (∀ i, s'.display i = false) ∧ (∀ i, s'.keypad i = false) ∧
      s'.PC = 0x200 ∧ s'.state = EmulatorState.RUNNING ∧
      (∃ t', Init (some rom) config (Reset t) = some t' ∧ { t' with inst := s'.inst } = s') ∧
      Init (some rom) config (Reset s') = some s' := by
  refine ⟨_, Init_Reset_eq rom config s, ?_, ?_, ?_, ?_, fun _ => rfl, rfl, rfl, fun _ => rfl,
    rfl, rfl, fun _ => rfl, fun _ => rfl, rfl, rfl, ⟨_, Init_Reset_eq rom config t, rfl⟩,
    Init_Reset_eq rom config _⟩
  · simp only [OnKeyDown, Init_Reset_eq]
  · intro a ha
    simp only [copyAt, font_length]
    rw [if_neg (by omega), if_pos (by omega)]
    simp
  · intro a h1 h2 h3
    simp only [copyAt]
    rw [if_pos (by omega)]
  · intro a h1 h2 h3
    simp only [copyAt, font_length]
    rw [if_neg (by omega), if_neg (by omega)]

/-- An instance of `reset_fresh_image`: resetting `collideMachine` with the two-byte ROM
`12 00` clears the sprite byte, the lit cell and `V[0]`, and loads font and ROM. -/
theorem reset_fresh_image_witness :
    collideMachine.ram 0x300 = 0xFF ∧ collideMachine.display 62 = true ∧
    collideMachine.V 0 = 62 ∧
    ∃ s', Init (some [0x12, 0x00]) (defaultConfig Extension.CHIP_8) (Reset collideMachine)
        = some s' ∧
      s'.ram 0 = 0xF0 ∧ s'.ram 0x4F = 0x80 ∧ s'.ram 0x200 = 0x12 ∧ s'.ram 0x201 = 0x00 ∧
      s'.ram 0x300 = 0 ∧ s'.display 62 = false ∧ s'.V 0 = 0 ∧ s'.PC = 0x200 ∧
      Init (some [0x12, 0x00]) (defaultConfig Extension.CHIP_8) (Reset s') = some s' := by
  obtain ⟨s', h, -, hfont, hrom, hzero, hV, -, -, -, -, -, hd, -, hpc, -, -, hidem⟩ :=
    reset_fresh_image [0x12, 0x00] (defaultConfig Extension.CHIP_8) collideMachine keyHeldMachine
  exact ⟨by decide, by decide, by decide, s', h, hfont 0 (by decide), hfont 0x4F (by decide),
    hrom 0x200 (by decide) (by decide) (by decide), hrom 0x201 (by decide) (by decide) (by decide),
    hzero 0x300 (by decide) (by decide) (Or.inr (by decide)), hd 62, hV 0, hpc, hidem⟩

/-! ## The keyboard -/

/-- The map `keymap` sends different host keys to different keypad indices. -/
theorem keymap_injective (a b : Scancode) (k : Nat)
    (ha : keymap a = some k) (hb : keymap b = some k) : a = b := by
  cases a <;> cases b <;> simp [keymap] at ha hb ⊢ <;> omega

/-- Every keypad index `0..15` is the image of a host key, and `keymap` has no other
value. -/
theorem keymap_onto (k : Nat) : k < 16 ↔ ∃ sc, keymap sc = some k := by
  constructor
  · intro hk
    interval_cases k
    · exact ⟨Scancode.ScancodeX, rfl⟩
    · exact ⟨Scancode.Scancode1, rfl⟩
    · exact ⟨Scancode.Scancode2, rfl⟩
    · exact ⟨Scancode.Scancode3, rfl⟩
    · exact ⟨Scancode.ScancodeQ, rfl⟩
    · exact ⟨Scancode.ScancodeW, rfl⟩
    · exact ⟨Scancode.ScancodeE, rfl⟩
    · exact ⟨Scancode.ScancodeA, rfl⟩
    · exact ⟨Scancode.ScancodeS, rfl⟩
    · exact ⟨Scancode.ScancodeD, rfl⟩
    · exact ⟨Scancode.ScancodeZ, rfl⟩
    · exact ⟨Scancode.ScancodeC, rfl⟩
    · exact ⟨Scancode.Scancode4, rfl⟩
    · exact ⟨Scancode.ScancodeR, rfl⟩
    · exact ⟨Scancode.ScancodeF, rfl⟩
    · exact ⟨Scancode.ScancodeV, rfl⟩
  · rintro ⟨sc, h⟩
    cases sc <;> simp [keymap] at h <;> omega

/-- A key-down event for a key of `keymap` other than `R` latches its keypad entry and
changes nothing else. -/
theorem key_down_latches (file : Option (List Nat)) (config : Config) (s : CHIP8)
    (sc : Scancode) (k : Nat) (hk : keymap sc = some k) (hR : sc ≠ Scancode.ScancodeR) :
    OnKeyDown file config s sc = some (config, { s with keypad := upd s.keypad k true }) := by
  cases sc <;> simp [keymap] at hk hR <;> subst hk <;> rfl

/-- A key-up event for a key of `keymap` releases its keypad entry and changes nothing
else. -/
theorem key_up_releases (s : CHIP8) (sc : Scancode) (k : Nat) (hk : keymap sc = some k) :
    OnKeyUp s sc = { s with keypad := upd s.keypad k false } := by
  simp only [OnKeyUp, hk]

/-- C15: the code evaluated on a key-down event for the host key `R`, which `keymap`
sends to the keypad index `0xD`.  The event reloads the ROM instead, and `keypad[0xD]` is
false afterwards. -/
theorem key_down_R_does_not_latch :
    keymap Scancode.ScancodeR = some 0xD ∧
    ∃ s', OnKeyDown (some []) (defaultConfig Extension.CHIP_8) blank Scancode.ScancodeR
        = some (defaultConfig Extension.CHIP_8, s') ∧
      s'.keypad 0xD = false :=
  ⟨rfl, _, rfl, rfl⟩

/-- The transitions of the emulator state that key-down events cause from RUNNING and
PAUSED. -/
theorem key_down_state (file : Option (List Nat)) (config : Config) (s : CHIP8) :
    (OnKeyDown file config s Scancode.ScancodeEscape).map (fun r => r.2.state)
      = some EmulatorState.QUIT ∧
    (s.state = EmulatorState.RUNNING →
      (OnKeyDown file config s Scancode.ScancodeSpace).map (fun r => r.2.state)
        = some EmulatorState.PAUSED) ∧
    (s.state = EmulatorState.PAUSED →
      (OnKeyDown file config s Scancode.ScancodeSpace).map (fun r => r.2.state)
        = some EmulatorState.RUNNING) ∧
    (∀ rom, file = some rom →
      (OnKeyDown file config s Scancode.ScancodeR).map (fun r => r.2.state)
        = some EmulatorState.RUNNING) := by
  refine ⟨rfl, fun h => ?_, fun h => ?_, fun rom h => ?_⟩
  · simp [OnKeyDown, h]
  · simp [OnKeyDown, h]
  · subst h
    simp only [OnKeyDown, Init_Reset_eq]
    rfl

/-- C16: the code evaluated in the state QUIT.  A key-down event for SPACE takes QUIT to
RUNNING, and so does one for `R`; a queue holding ESC and then SPACE, handled by one call
of `HandleInput` from RUNNING, ends in RUNNING. -/
theorem quit_is_not_final :
    (OnKeyDown (some []) (defaultConfig Extension.CHIP_8)
        { blank with state := EmulatorState.QUIT } Scancode.ScancodeSpace).map
      (fun r => r.2.state) = some EmulatorState.RUNNING ∧
    (OnKeyDown (some []) (defaultConfig Extension.CHIP_8)
        { blank with state := EmulatorState.QUIT } Scancode.ScancodeR).map
      (fun r => r.2.state) = some EmulatorState.RUNNING ∧
    blank.state = EmulatorState.RUNNING ∧
    (HandleInput (some [])
        [Event.EventKeyDown Scancode.ScancodeEscape, Event.EventKeyDown Scancode.ScancodeSpace]
        (defaultConfig Extension.CHIP_8) blank).map
      (fun r => r.2.state) = some EmulatorState.RUNNING := by
  decide

/-! ## The timers -/

/-- One call of `UpdateTimers`, field by field. -/
theorem UpdateTimers_eq (s : CHIP8) :
    UpdateTimers s =
      { s with
        delayTimer := s.delayTimer - 1
        soundTimer := s.soundTimer - 1
        beeping := decide (s.soundTimer > 0) } := by
  unfold UpdateTimers
  by_cases hd : s.delayTimer > 0 <;> by_cases hs : s.soundTimer > 0
  · simp only [hd, hs, if_true, decide_True]
  · have h0 : s.soundTimer = 0 := by omega
    simp only [hd, hs, if_true, if_false, decide_False]
    rw [h0]
  · have h0 : s.delayTimer = 0 := by omega
    simp only [hd, hs, if_true, if_false, decide_True]
    rw [h0]
  · have h0 : s.delayTimer = 0 := by omega
    have h1 : s.soundTimer = 0 := by omega
    simp only [hd, hs, if_false, decide_False]
    rw [h0, h1]

/-- C17 as stated fails: from `soundTimer = 1` the call yields a state in which the tone
flag is set although `soundTimer` is 0. -/
theorem tone_flag_counterexample :
    ¬ ((UpdateTimers { blank with soundTimer := 1 }).beeping = true ↔
        (UpdateTimers { blank with soundTimer := 1 }).soundTimer > 0) := by
  decide

/-- C17, amended: in the state that `UpdateTimers` yields, the tone flag is set exactly
when `soundTimer` was positive before the call; so it is set whenever the new `soundTimer`
is positive, and the new `soundTimer` is the old one less one. -/
theorem tone_flag (s : CHIP8) :
    ((UpdateTimers s).beeping = true ↔ s.soundTimer > 0) ∧
    ((UpdateTimers s).soundTimer > 0 → (UpdateTimers s).beeping = true) ∧
    (UpdateTimers s).soundTimer = s.soundTimer - 1 := by
  rw [UpdateTimers_eq]
  refine ⟨by simp, fun h => ?_, rfl⟩
  simp only at h ⊢
  simp only [decide_eq_true_eq]
  omega

/-- An instance of `tone_flag`: from `soundTimer = 2` the flag is set and `soundTimer`
becomes 1. -/
theorem tone_flag_witness :
    (UpdateTimers { blank with soundTimer := 2 }).soundTimer > 0 ∧
    (UpdateTimers { blank with soundTimer := 2 }).beeping = true :=
  ⟨by decide, (tone_flag { blank with soundTimer := 2 }).2.1 (by decide)⟩

/-- The effect of `n` calls of `UpdateTimers` on the two timers; nothing else but the tone
flag changes. -/
theorem iterate_UpdateTimers (s : CHIP8) (n : Nat) :
    Nat.iterate UpdateTimers n s =
      { s with
        delayTimer := s.delayTimer - n
        soundTimer := s.soundTimer - n
        beeping := (Nat.iterate UpdateTimers n s).beeping } := by
  induction n with
  | zero => rfl
  | succ n ih =>
    rw [Function.iterate_succ_apply', UpdateTimers_eq, ih]
    simp only [CHIP8.mk.injEq, true_and, and_true]
    exact ⟨by omega, by omega⟩

/-- C18: one call of `UpdateTimers` takes each timer from `t` to `t - 1` when `t > 0` and
leaves it at 0 otherwise; after `n` calls a timer that started at `t` holds
`max(0, t - n)`; RAM, registers, `I`, `PC`, stack, display and keypad are untouched. -/
theorem timers_count_down (s : CHIP8) (n : Nat) :
    (UpdateTimers s).delayTimer = (if s.delayTimer > 0 then s.delayTimer - 1 else 0) ∧
    (UpdateTimers s).soundTimer = (if s.soundTimer > 0 then s.soundTimer - 1 else 0) ∧
    ((Nat.iterate UpdateTimers n s).delayTimer : Int) = max 0 ((s.delayTimer : Int) - n) ∧
    ((Nat.iterate UpdateTimers n s).soundTimer : Int) = max 0 ((s.soundTimer : Int) - n) ∧
    (Nat.iterate UpdateTimers n s).ram = s.ram ∧
    (Nat.iterate UpdateTimers n s).V = s.V ∧
    (Nat.iterate UpdateTimers n s).I = s.I ∧
    (Nat.iterate UpdateTimers n s).PC = s.PC ∧
    (Nat.iterate UpdateTimers n s).stackPointer = s.stackPointer ∧
    (Nat.iterate UpdateTimers n s).stack = s.stack ∧
    (Nat.iterate UpdateTimers n s).display = s.display ∧
    (Nat.iterate UpdateTimers n s).keypad = s.keypad := by
  rw [iterate_UpdateTimers, UpdateTimers_eq]
  refine ⟨?_, ?_, ?_, ?_, rfl, rfl, rfl, rfl, rfl, rfl, rfl, rfl⟩
  · show s.delayTimer - 1 = _
    split <;> omega
  · show s.soundTimer - 1 = _
    split <;> omega
  · show ((s.delayTimer - n : Nat) : Int) = _
    omega
  · show ((s.soundTimer - n : Nat) : Int) = _
    omega

/-! ## The key wait `FX0A` with no key held -/

/-- With no key held the scan of `FX0A` finds nothing. -/
theorem scanKeys_none (keypad : Nat → Bool) :
    ∀ n i, (∀ j, i ≤ j → j < i + n → keypad j = false) → scanKeys keypad n i = (0xFF, false) := by
  intro n
  induction n with
  | zero => intro i _; rfl
  | succ n ih =>
    intro i h
    unfold scanKeys
    rw [h i (Nat.le_refl _) (by omega)]
    simp only [Bool.false_eq_true, if_false]
    exact ih (i + 1) (fun j h1 h2 => h j (by omega) (by omega))

/-- C19: when no keypad entry is true, an `FX0A` at address `A <= 4094` leaves `PC = A`,
so that it is fetched again, and leaves registers, `I`, RAM, stack, display, timers and
keypad as they were. -/
theorem key_wait_no_key (config : Config) (rnd : Nat) (s : CHIP8) (X : Nat) (hX : X < 16)
    (hPC : s.PC + 1 < 4096) (h0 : s.ram s.PC = 0xF0 + X) (h1 : s.ram (s.PC + 1) = 0x0A)
    (hk : ∀ i, i < 16 → s.keypad i = false) :
    ∃ s', ExecuteInstruction config rnd s = some s' ∧
      s'.PC = s.PC ∧ s'.V = s.V ∧ s'.I = s.I ∧ s'.ram = s.ram ∧
      s'.stackPointer = s.stackPointer ∧ s'.stack = s.stack ∧ s'.display = s.display ∧
      s'.delayTimer = s.delayTimer ∧ s'.soundTimer = s.soundTimer ∧ s'.keypad = s.keypad := by
  have hex : ExecuteInstruction config rnd s = _ :=
    exec_FXNN config rnd s X 0 10 hX (by omega) (by omega) hPC h0 (by omega)
  have e : (s.PC + 2 + 65536 - 2) % 65536 = s.PC := by omega
  simp only [execMisc, instOf, e,
    scanKeys_none s.keypad 16 0 (fun j _ h2 => hk j (by omega))] at hex
  exact ⟨_, hex, rfl, rfl, rfl, rfl, rfl, rfl, rfl, rfl, rfl, rfl⟩

/-- An instance of `key_wait_no_key`: `F00A` at `0x200` with no key held. -/
theorem key_wait_no_key_witness :
    keyWaitMachine.PC = 0x200 ∧ (∀ i, keyWaitMachine.keypad i = false) ∧
    ∃ s', ExecuteInstruction (defaultConfig Extension.CHIP_8) 0 keyWaitMachine = some s' ∧
      s'.PC = 0x200 ∧ s'.V = keyWaitMachine.V ∧ s'.ram = keyWaitMachine.ram := by
  obtain ⟨s', h, hpc, hV, -, hram, -⟩ :=
    key_wait_no_key (defaultConfig Extension.CHIP_8) 0 keyWaitMachine 0 (by decide) (by decide)
      (by decide) (by decide) (fun _ _ => rfl)
  exact ⟨rfl, fun _ => rfl, s', h, hpc, hV, hram⟩

/-! ## Opcodes outside the instruction set -/

/-- An opcode outside the instruction set only advances `PC`. -/
theorem undefined_eq (config : Config) (rnd : Nat) (s : CHIP8) (hi X Y N : Nat)
    (hhi : hi < 16) (hX : X < 16) (hY : Y < 16) (hN : N < 16)
    (hPC : s.PC + 1 < 4096) (h0 : s.ram s.PC = hi * 16 + X) (h1 : s.ram (s.PC + 1) = Y * 16 + N)
    (hundef :
      (hi = 0 ∧ X * 256 + Y * 16 + N ≠ 0x0E0 ∧ X * 256 + Y * 16 + N ≠ 0x0EE) ∨
      (hi = 5 ∧ N ≠ 0) ∨
      (hi = 9 ∧ N ≠ 0) ∨
      (hi = 8 ∧ (N = 8 ∨ N = 9 ∨ N = 0xA ∨ N = 0xB ∨ N = 0xC ∨ N = 0xD ∨ N = 0xF)) ∨
      (hi = 0xE ∧ Y * 16 + N ≠ 0x9E ∧ Y * 16 + N ≠ 0xA1) ∨
      (hi = 0xF ∧ Y * 16 + N ≠ 0x07 ∧ Y * 16 + N ≠ 0x0A ∧ Y * 16 + N ≠ 0x15 ∧
        Y * 16 + N ≠ 0x18 ∧ Y * 16 + N ≠ 0x1E ∧ Y * 16 + N ≠ 0x29 ∧ Y * 16 + N ≠ 0x33 ∧
        Y * 16 + N ≠ 0x55 ∧ Y * 16 + N ≠ 0x65)) :
    ExecuteInstruction config rnd s =
      some { s with PC := s.PC + 2, inst := instOf hi X Y N } := by
  rw [ExecuteInstruction_eq config rnd s hi X Y N hhi hX hY hN hPC h0 h1]
  unfold dispatch
  rw [instOf_high hi X Y N hhi hX hY hN]
  rcases hundef with ⟨rfl, h1, h2⟩ | ⟨rfl, h⟩ | ⟨rfl, h⟩ | ⟨rfl, h⟩ | ⟨rfl, h1, h2⟩ | ⟨rfl, h⟩
  · simp only [instOf]
  · simp only [instOf, if_pos h]
  · simp only [instOf, if_pos h]
  · rcases h with rfl | rfl | rfl | rfl | rfl | rfl | rfl <;> rfl
  · simp only [execKey, instOf]
  · obtain ⟨a1, a2, a3, a4, a5, a6, a7, a8, a9⟩ := h
    simp only [execMisc, instOf]

/-- C20: an opcode at `A <= 4094` that is none of the defined instructions (a `0NNN` other
than `00E0` and `00EE`, a `5XYN` or `9XYN` with `N` not 0, an `8XYN` with `N` in
`8, 9, A, B, C, D, F`, an `EXNN` other than `EX9E` and `EXA1`, an `FXNN` outside the nine
defined ones) completes, leaves `PC = A + 2` and changes nothing in RAM, registers, `I`,
stack, display, timers and keypad. -/
theorem undefined_opcode_noop (config : Config) (rnd : Nat) (s : CHIP8) (hi X Y N : Nat)
    (hhi : hi < 16) (hX : X < 16) (hY : Y < 16) (hN : N < 16)
    (hPC : s.PC + 1 < 4096) (h0 : s.ram s.PC = hi * 16 + X) (h1 : s.ram (s.PC + 1) = Y * 16 + N)
    (hundef :
      (hi = 0 ∧ X * 256 + Y * 16 + N ≠ 0x0E0 ∧ X * 256 + Y * 16 + N ≠ 0x0EE) ∨
      (hi = 5 ∧ N ≠ 0) ∨
      (hi = 9 ∧ N ≠ 0) ∨
      (hi = 8 ∧ (N = 8 ∨ N = 9 ∨ N = 0xA ∨ N = 0xB ∨ N = 0xC ∨ N = 0xD ∨ N = 0xF)) ∨
      (hi = 0xE ∧ Y * 16 + N ≠ 0x9E ∧ Y * 16 + N ≠ 0xA1) ∨
      (hi = 0xF ∧ Y * 16 + N ≠ 0x07 ∧ Y * 16 + N ≠ 0x0A ∧ Y * 16 + N ≠ 0x15 ∧
        Y * 16 + N ≠ 0x18 ∧ Y * 16 + N ≠ 0x1E ∧ Y * 16 + N ≠ 0x29 ∧ Y * 16 + N ≠ 0x33 ∧
        Y * 16 + N ≠ 0x55 ∧ Y * 16 + N ≠ 0x65)) :
    ∃ s', ExecuteInstruction config rnd s = some s' ∧
      s'.PC = s.PC + 2 ∧ s'.ram = s.ram ∧ s'.V = s.V ∧ s'.I = s.I ∧
      s'.stackPointer = s.stackPointer ∧ s'.stack = s.stack ∧ s'.display = s.display ∧
      s'.delayTimer = s.delayTimer ∧ s'.soundTimer = s.soundTimer ∧ s'.keypad = s.keypad :=
  ⟨_, undefined_eq config rnd s hi X Y N hhi hX hY hN hPC h0 h1 hundef,
    rfl, rfl, rfl, rfl, rfl, rfl, rfl, rfl, rfl, rfl⟩

/-- An instance of `undefined_opcode_noop`: the opcode `8018` at `0x200`. -/
theorem undefined_opcode_noop_witness :
    undefinedMachine.ram 0x200 = 0x80 ∧ undefinedMachine.ram 0x201 = 0x18 ∧
    undefinedMachine.PC = 0x200 ∧
    ∃ s', ExecuteInstruction (defaultConfig Extension.CHIP_8) 0 undefinedMachine = some s' ∧
      s'.PC = 0x202 ∧ s'.V = undefinedMachine.V ∧ s'.ram = undefinedMachine.ram := by
  obtain ⟨s', h, hpc, hram, hV, -⟩ :=
    undefined_opcode_noop (defaultConfig Extension.CHIP_8) 0 undefinedMachine 8 0 1 8
      (by decide) (by decide) (by decide) (by decide) (by decide) (by decide) (by decide)
      (Or.inr (Or.inr (Or.inr (Or.inl ⟨rfl, Or.inl rfl⟩))))
  exact ⟨by decide, by decide, rfl, s', h, hpc, hV, hram⟩

/-! ## Drawing the same sprite twice -/

/-- Toggling the same cells with the same bits twice gives back the display. -/
theorem spriteDisplay_twice (d : Nat → Bool) (ram : Nat → Nat) (I x0 n row y : Nat) :
    spriteDisplay (spriteDisplay d ram I x0 n row y) ram I x0 n row y = d := by
  funext i
  simp only [spriteDisplay]
  by_cases hr : y ≤ i / 64 ∧ i / 64 < min (y + n) 32 ∧ x0 ≤ i % 64 ∧ i % 64 < min (x0 + 8) 64
  · simp only [if_pos hr]
    cases d i <;> cases (ram (I + row + (i / 64 - y))).testBit (7 - (i % 64 - x0)) <;> rfl
  · simp only [if_neg hr]

/-- C21: on the 64x32 display with `I + N <= 4096` and `X`, `Y` other than `0xF`, a `DXYN`
leaves `V[X]`, `V[Y]`, `I` and the RAM as they were, and executing the same `DXYN` once
more (fetched at `pc2`: the same address again, or the next one when the opcode is
repeated there) gives back the display as it was before the first execution. -/
theorem blit_twice (config : Config) (rnd1 rnd2 : Nat) (s : CHIP8) (X Y N pc2 : Nat)
    (h64 : config.window_width = 64) (h32 : config.window_height = 32)
    (hX : X < 16) (hY : Y < 16) (hN : N < 16) (hXF : X ≠ 0xF) (hYF : Y ≠ 0xF)
    (hPC : s.PC + 1 < 4096) (h0 : s.ram s.PC = 0xD0 + X) (h1 : s.ram (s.PC + 1) = Y * 16 + N)
    (hI : s.I + N ≤ 4096)
    (hPC2 : pc2 + 1 < 4096) (g0 : s.ram pc2 = 0xD0 + X) (g1 : s.ram (pc2 + 1) = Y * 16 + N) :
    ∃ s1, ExecuteInstruction config rnd1 s = some s1 ∧
      s1.V X = s.V X ∧ s1.V Y = s.V Y ∧ s1.I = s.I ∧ s1.ram = s.ram ∧
      ∃ s2, ExecuteInstruction config rnd2 { s1 with PC := pc2 } = some s2 ∧
        s2.display = s.display := by
  have hV : ∀ i, i ≠ 0xF →
      (if spriteHit s.display s.ram s.I (s.V X % 64) N 0 (s.V Y % 32) = true then upd s.V 0xF 1
        else upd s.V 0xF 0) i = s.V i := by
    intro i hi
    split <;> exact upd_other _ _ _ _ hi
  refine ⟨_, draw_eq config rnd1 s X Y N h64 h32 hX hY hN hPC h0 h1 hI,
    hV X hXF, hV Y hYF, rfl, rfl, ?_⟩
  refine ⟨_, draw_eq config rnd2 _ X Y N h64 h32 hX hY hN hPC2 g0 g1 hI, ?_⟩
  simp only [hV X hXF, hV Y hYF]
  exact spriteDisplay_twice _ _ _ _ _ _ _

/-- Scenario 6 of the specification, obtained from `blit_twice`: `D011` executed twice
on the cleared display gives back the cleared display, and direct evaluation gives
`V[0xF] = 1` after the second run. -/
theorem blit_twice_witness :
    (∃ s1, ExecuteInstruction (defaultConfig Extension.CHIP_8) 0 clipMachine = some s1 ∧
      s1.display 62 = true ∧ s1.display 63 = true ∧
      ∃ s2, ExecuteInstruction (defaultConfig Extension.CHIP_8) 0 { s1 with PC := 0x200 }
          = some s2 ∧
        s2.display = clipMachine.display ∧ s2.display 62 = false ∧ s2.display 63 = false) ∧
    ((ExecuteInstruction (defaultConfig Extension.CHIP_8) 0 clipMachine).bind
        (fun s1 => ExecuteInstruction (defaultConfig Extension.CHIP_8) 0
          { s1 with PC := 0x200 })).map (fun s2 => s2.V 0xF) = some 1 := by
  obtain ⟨s1, e1, -, -, -, -, s2, e2, hd⟩ :=
    blit_twice (defaultConfig Extension.CHIP_8) 0 0 clipMachine 0 1 1 0x200 rfl rfl
      (by decide) (by decide) (by decide) (by decide) (by decide) (by decide) (by decide)
      (by decide) (by decide) (by decide) (by decide) (by decide)
  have e1' : ExecuteInstruction (defaultConfig Extension.CHIP_8) 0 clipMachine = some _ := rfl
  have hs1 := Option.some.inj (e1.symm.trans e1')
  refine ⟨⟨s1, e1, ?_, ?_, s2, e2, hd, ?_, ?_⟩, by decide⟩
  · rw [hs1]; decide
  · rw [hs1]; decide
  · rw [hd]; rfl
  · rw [hd]; rfl

/-! ## Completion of one instruction -/

/-- The loop of `FX65` completes when every address it reads lies inside the RAM. -/
theorem regLoad_some (config : Config) :
    ∀ n i (s : CHIP8),
      (config.currentExtension = Extension.CHIP_8 → s.I + n ≤ 4096) →
      (config.currentExtension ≠ Extension.CHIP_8 → s.I + i + n ≤ 4096) →
      ∃ s', regLoad config n i s = some s' := by
  intro n
  induction n with
  | zero => intro i s _ _; exact ⟨s, rfl⟩
  | succ n ih =>
    intro i s h1 h2
    unfold regLoad
    by_cases hc : config.currentExtension = Extension.CHIP_8
    · have := h1 hc
      rw [if_pos hc, if_pos (by omega)]
      exact ih (i + 1) _ (fun _ => by simp only; omega) (fun h => absurd hc h)
    · have := h2 hc
      rw [if_neg hc, if_pos (by omega)]
      exact ih (i + 1) _ (fun h => absurd h hc) (fun _ => by simp only; omega)

/-- The loop of `FX55` completes when every address it writes lies inside the RAM. -/
theorem regDump_some (config : Config) (n : Nat) (s : CHIP8) (h : s.I + n ≤ 4096) :
    ∃ s', regDump config n 0 s = some s' := by
  by_cases hc : config.currentExtension = Extension.CHIP_8
  · exact ⟨_, regDump_chip8 config hc n 0 s h⟩
  · exact ⟨_, regDump_other config hc n 0 s (by omega)⟩

/-- The group `EXNN` completes when the key index is at most 15. -/
theorem execKey_some (inst : Instruction) (s : CHIP8)
    (h : (inst.NN = 0x9E ∨ inst.NN = 0xA1) → s.V inst.X ≤ 15) :
    ∃ s', execKey inst s = some s' := by
  unfold execKey
  split
  · rename_i heq
    have := h (Or.inl heq)
    rw [if_pos (by omega)]
    split <;> exact ⟨_, rfl⟩
  · rename_i heq
    have := h (Or.inr heq)
    rw [if_pos (by omega)]
    split <;> exact ⟨_, rfl⟩
  · exact ⟨_, rfl⟩

/-- The group `FXNN` completes when `FX33`, `FX55` and `FX65` stay inside the RAM. -/
theorem execMisc_some (config : Config) (inst : Instruction) (s : CHIP8)
    (hBcd : inst.NN = 0x33 → s.I + 2 ≤ 4095)
    (hReg : (inst.NN = 0x55 ∨ inst.NN = 0x65) → s.I + inst.X ≤ 4095) :
    ∃ s', execMisc config inst s = some s' := by
  unfold execMisc
  split
  · rcases hscan : scanKeys s.keypad 16 0 with ⟨key, any⟩
    simp only
    cases any with
    | false => exact ⟨_, rfl⟩
    | true =>
      have hf := scanKeys_found s.keypad 16 0 (by omega) (by rw [hscan])
      rw [hscan] at hf
      simp only [Bool.not_true, Bool.false_eq_true, if_false, if_pos (show key < 16 by omega),
        if_pos hf.1]
      exact ⟨_, rfl⟩
  · exact ⟨_, rfl⟩
  · exact ⟨_, rfl⟩
  · exact ⟨_, rfl⟩
  · exact ⟨_, rfl⟩
  · exact ⟨_, rfl⟩
  · rename_i heq
    have := hBcd heq
    have e2 : (s.I + 2) % 65536 = s.I + 2 := by omega
    have e1 : (s.I + 1) % 65536 = s.I + 1 := by omega
    simp only [e1, e2, if_pos (show s.I + 2 < 4096 by omega),
      if_pos (show s.I + 1 < 4096 by omega), if_pos (show s.I < 4096 by omega)]
    exact ⟨_, rfl⟩
  · rename_i heq
    have := hReg (Or.inl heq)
    exact regDump_some config _ s (by omega)
  · rename_i heq
    have := hReg (Or.inr heq)
    exact regLoad_some config _ 0 s (fun _ => by omega) (fun _ => by omega)
  · exact ⟨_, rfl⟩

/-- C22: on the 64x32 configuration, an instruction fetched at `PC <= 4094` completes,
that is, no array index is out of range and no divisor is zero, provided that
`1 <= SP <= 12` for `00EE`, `SP <= 11` for `2NNN`, `I + N <= 4096` for `DXYN`,
`V[X] <= 15` for `EX9E` and `EXA1`, `I + 2 <= 4095` for `FX33` and `I + X <= 4095` for `FX55`
and `FX65`.  The loops of the instruction are recursions over their number of rounds, so
completion includes their termination. -/
theorem instruction_completes (config : Config) (rnd : Nat) (s : CHIP8) (hi X Y N : Nat)
    (h64 : config.window_width = 64) (h32 : config.window_height = 32)
    (hhi : hi < 16) (hX : X < 16) (hY : Y < 16) (hN : N < 16)
    (hPC : s.PC + 1 < 4096) (h0 : s.ram s.PC = hi * 16 + X) (h1 : s.ram (s.PC + 1) = Y * 16 + N)
    (hRet : hi = 0 → X * 256 + Y * 16 + N = 0x0EE → 1 ≤ s.stackPointer ∧ s.stackPointer ≤ 12)
    (hCall : hi = 2 → s.stackPointer ≤ 11)
    (hDraw : hi = 0xD → s.I + N ≤ 4096)
    (hKey : hi = 0xE → (Y * 16 + N = 0x9E ∨ Y * 16 + N = 0xA1) → s.V X ≤ 15)
    (hBcd : hi = 0xF → Y * 16 + N = 0x33 → s.I + 2 ≤ 4095)
    (hReg : hi = 0xF → (Y * 16 + N = 0x55 ∨ Y * 16 + N = 0x65) → s.I + X ≤ 4095) :
    ∃ s', ExecuteInstruction config rnd s = some s' := by
  by_cases hD : hi = 0xD
  · subst hD
    exact ⟨_, draw_eq config rnd s X Y N h64 h32 hX hY hN hPC (by omega) h1 (hDraw rfl)⟩
  rw [ExecuteInstruction_eq config rnd s hi X Y N hhi hX hY hN hPC h0 h1]
  unfold dispatch
  rw [instOf_high hi X Y N hhi hX hY hN]
  interval_cases hi
  · simp only [instOf]
    split
    · exact ⟨_, rfl⟩
    · rename_i heq
      have := hRet rfl heq
      have e : (s.stackPointer + 256 - 1) % 256 = s.stackPointer - 1 := by omega
      simp only [e, if_pos (show s.stackPointer - 1 < 12 by omega)]
      exact ⟨_, rfl⟩
    · exact ⟨_, rfl⟩
  · exact ⟨_, rfl⟩
  · have := hCall rfl
    simp only [if_pos (show s.stackPointer < 12 by omega)]
    exact ⟨_, rfl⟩
  · simp only []
    split <;> exact ⟨_, rfl⟩
  · simp only []
    split <;> exact ⟨_, rfl⟩
  · simp only []
    split
    · exact ⟨_, rfl⟩
    · split <;> exact ⟨_, rfl⟩
  · exact ⟨_, rfl⟩
  · exact ⟨_, rfl⟩
  · exact ⟨_, rfl⟩
  · simp only []
    split
    · exact ⟨_, rfl⟩
    · split <;> exact ⟨_, rfl⟩
  · exact ⟨_, rfl⟩
  · exact ⟨_, rfl⟩
  · exact ⟨_, rfl⟩
  · exact absurd rfl hD
  · exact execKey_some _ _ (hKey rfl)
  · exact execMisc_some config _ _ (hBcd rfl) (hReg rfl)

/-- Instances of `instruction_completes`: the sprite blit of scenario 6 and the register
dump of scenario 8. -/
theorem instruction_completes_witness :
    (clipMachine.PC + 1 < 4096 ∧ clipMachine.I + 1 ≤ 4096 ∧
      ∃ s', ExecuteInstruction (defaultConfig Extension.CHIP_8) 0 clipMachine = some s') ∧
    (dumpMachine.PC + 1 < 4096 ∧ dumpMachine.I + 3 ≤ 4095 ∧
      ∃ s', ExecuteInstruction (defaultConfig Extension.CHIP_8) 0 dumpMachine = some s') :=
  ⟨⟨by decide, by decide,
      instruction_completes (defaultConfig Extension.CHIP_8) 0 clipMachine 0xD 0 1 1 rfl rfl
        (by decide) (by decide) (by decide) (by decide) (by decide) (by decide) (by decide)
        (fun h => absurd h (by decide)) (fun h => absurd h (by decide)) (fun _ => by decide)
        (fun h => absurd h (by decide)) (fun h => absurd h (by decide))
        (fun h => absurd h (by decide))⟩,
    ⟨by decide, by decide,
      instruction_completes (defaultConfig Extension.CHIP_8) 0 dumpMachine 0xF 3 5 5 rfl rfl
        (by decide) (by decide) (by decide) (by decide) (by decide) (by decide) (by decide)
        (fun h => absurd h (by decide)) (fun h => absurd h (by decide))
        (fun h => absurd h (by decide)) (fun h => absurd h (by decide))
        (fun _ h => absurd h (by decide)) (fun _ _ => by decide)⟩⟩

/-! ## The volume keys -/

/-- While the volume is at most 32267, the key `P` adds 500 to it. -/
theorem volume_up_in_range (file : Option (List Nat)) (config : Config) (s : CHIP8)
    (h0 : 0 ≤ config.volume) (h : config.volume ≤ 32267) :
    (OnKeyDown file config s Scancode.ScancodeP).map (fun r => r.1.volume)
      = some (config.volume + 500) := by
  simp only [OnKeyDown, if_pos (show config.volume < 32767 by omega), Option.map_some',
    int16, Option.some.injEq]
  omega

/-- From a volume in `32268..32766` the key `P` wraps the 16-bit volume to a negative
value. -/
theorem volume_up_wraps (file : Option (List Nat)) (config : Config) (s : CHIP8)
    (h0 : 32268 ≤ config.volume) (h : config.volume ≤ 32766) :
    (OnKeyDown file config s Scancode.ScancodeP).map (fun r => r.1.volume)
      = some (config.volume + 500 - 65536) := by
  simp only [OnKeyDown, if_pos (show config.volume < 32767 by omega), Option.map_some',
    int16, Option.some.injEq]
  omega

/-- C23: the code evaluated on key-down events for `P` from the default volume 3000.
After 59 events the volume is 32500; the 60th passes the test `volume < 32767` and the
16-bit sum wraps to -32536.  After 126 events the volume is 464, and one key-down event
for `O` then takes it to -36. -/
theorem volume_overflows :
    (defaultConfig Extension.CHIP_8).volume = 3000 ∧
    (HandleInput (some []) (List.replicate 59 (Event.EventKeyDown Scancode.ScancodeP))
        (defaultConfig Extension.CHIP_8) blank).map (fun r => r.1.volume) = some 32500 ∧
    (HandleInput (some []) (List.replicate 60 (Event.EventKeyDown Scancode.ScancodeP))
        (defaultConfig Extension.CHIP_8) blank).map (fun r => r.1.volume) = some (-32536) ∧
    (HandleInput (some [])
        (List.replicate 126 (Event.EventKeyDown Scancode.ScancodeP) ++
          [Event.EventKeyDown Scancode.ScancodeO])
        (defaultConfig Extension.CHIP_8) blank).map (fun r => r.1.volume) = some (-36) := by
  refine ⟨rfl, ?_, ?_, ?_⟩ <;> decide

end Chip8
